import Mathlib

/-!
Verification of the job lease coordinator (TaskQueue Durable Object) and the
reliable webhook delivery subsystem of the behalf-chrome-extension repository.

The embedding follows the TypeScript source:
  - the TaskQueue Durable Object (lease / heartbeat / release / cleanup),
  - the submit handler of the V2 API,
  - the webhook consumer (processWebhookMessage and its D1 helpers),
  - the HMAC signature helpers (createWebhookSignature / verifyWebhookSignature).

Modelling conventions:
  - String ids (job ids, lease ids, browser ids, urls, r2 keys) are modelled as
    Nat tokens; generateLeaseId / generateDeliveryId return fresh unique ids
    (timestamp plus randomness in the source) and are modelled as counters that
    are bumped on every call, so successive generated ids are distinct.
  - Date.now() is modelled by an explicit `now : Nat` argument (epoch ms),
    sampled once per handler invocation.
  - The D1 jobs / artifacts / callbacks tables are lists of rows; an SQL
    UPDATE ... WHERE is a map over the rows guarded by the WHERE predicate and
    its `changes` count is the number of matching rows.
  - JavaScript Map and Set are association lists / lists without duplicate
    keys, preserving insertion order as Map iteration does.
  - Byte strings (payloads, secrets, signatures) are lists of Nat < 256; the
    TextEncoder step of the source is the identity on these byte lists.
-/

/-! ### Association lists with Nat keys (JavaScript Map) -/

def alookup {α : Type} : List (Nat × α) → Nat → Option α
  | [], _ => none
  | (k, v) :: t, k2 => if k = k2 then some v else alookup t k2

/-- Map.set: replace the value in place if the key exists, else append
(JavaScript Map preserves insertion order). -/
def aset {α : Type} : List (Nat × α) → Nat → α → List (Nat × α)
  | [], k, v => [(k, v)]
  | (k1, v1) :: t, k, v => if k1 = k then (k, v) :: t else (k1, v1) :: aset t k v

/-- Map.delete: remove the entry with the given key. -/
def aerase {α : Type} : List (Nat × α) → Nat → List (Nat × α)
  | [], _ => []
  | (k1, v1) :: t, k => if k1 = k then t else (k1, v1) :: aerase t k

def keysNodup {α : Type} (m : List (Nat × α)) : Prop :=
  (m.map Prod.fst).Nodup

theorem alookup_aset_self {α : Type} (m : List (Nat × α)) (k : Nat) (v : α) :
    alookup (aset m k v) k = some v := by
  induction m with
  | nil => simp [aset, alookup]
  | cons h t ih =>
      obtain ⟨k1, v1⟩ := h
      by_cases hk : k1 = k
      · simp [aset, hk, alookup]
      · simp [aset, hk, alookup, ih]

theorem alookup_aset_ne {α : Type} (m : List (Nat × α)) (k k2 : Nat) (v : α)
    (h : k ≠ k2) : alookup (aset m k v) k2 = alookup m k2 := by
  induction m with
  | nil => simp [aset, alookup, h]
  | cons hd t ih =>
      obtain ⟨k1, v1⟩ := hd
      by_cases hk : k1 = k
      · cases hk
        simp [aset, alookup, h]
      · by_cases hk2 : k1 = k2
        · cases hk2
          simp [aset, hk, alookup]
        · simp [aset, hk, alookup, hk2, ih]

theorem alookup_aerase_ne {α : Type} (m : List (Nat × α)) (k k2 : Nat)
    (h : k ≠ k2) : alookup (aerase m k) k2 = alookup m k2 := by
  induction m with
  | nil => simp [aerase]
  | cons hd t ih =>
      obtain ⟨k1, v1⟩ := hd
      by_cases hk : k1 = k
      · cases hk
        simp [aerase, alookup, h]
      · by_cases hk2 : k1 = k2
        · cases hk2
          simp [aerase, hk, alookup]
        · simp [aerase, hk, alookup, hk2, ih]

theorem alookup_eq_none_of_not_memKeys {α : Type} (m : List (Nat × α)) (k : Nat)
    (h : k ∉ m.map Prod.fst) : alookup m k = none := by
  induction m with
  | nil => simp [alookup]
  | cons hd t ih =>
      obtain ⟨k1, v1⟩ := hd
      simp only [List.map_cons, List.mem_cons] at h
      push_neg at h
      have hne : ¬k1 = k := fun hc => h.1 hc.symm
      simp [alookup, hne, ih h.2]

theorem aerase_keys_subset {α : Type} (m : List (Nat × α)) (k : Nat) :
    ∀ k2 ∈ (aerase m k).map Prod.fst, k2 ∈ m.map Prod.fst := by
  induction m with
  | nil => simp [aerase]
  | cons hd t ih =>
      obtain ⟨k1, v1⟩ := hd
      by_cases hk : k1 = k
      · simp only [aerase, hk, if_pos rfl]
        intro k2 hk2
        exact List.mem_cons_of_mem _ hk2
      · intro k2 hk2
        simp only [aerase, if_neg hk, List.map_cons, List.mem_cons] at hk2
        simp only [List.map_cons, List.mem_cons]
        rcases hk2 with h1 | h2
        · exact Or.inl h1
        · exact Or.inr (ih k2 h2)

theorem keysNodup_aerase {α : Type} (m : List (Nat × α)) (k : Nat)
    (h : keysNodup m) : keysNodup (aerase m k) := by
  induction m with
  | nil => simp [aerase, keysNodup]
  | cons hd t ih =>
      obtain ⟨k1, v1⟩ := hd
      unfold keysNodup at h
      simp only [List.map_cons, List.nodup_cons] at h
      by_cases hk : k1 = k
      · simpa [keysNodup, aerase, hk] using h.2
      · unfold keysNodup
        simp only [aerase, if_neg hk, List.map_cons, List.nodup_cons]
        exact ⟨fun hc => h.1 (aerase_keys_subset t k k1 hc), ih h.2⟩

theorem alookup_aerase_self {α : Type} (m : List (Nat × α)) (k : Nat)
    (h : keysNodup m) : alookup (aerase m k) k = none := by
  induction m with
  | nil => simp [aerase, alookup]
  | cons hd t ih =>
      obtain ⟨k1, v1⟩ := hd
      unfold keysNodup at h
      simp only [List.map_cons, List.nodup_cons] at h
      by_cases hk : k1 = k
      · subst hk
        simp only [aerase, if_pos rfl]
        exact alookup_eq_none_of_not_memKeys t k1 h.1
      · simp [aerase, hk, alookup, ih h.2]

theorem aset_keys_subset {α : Type} (m : List (Nat × α)) (k : Nat) (v : α) :
    ∀ k2 ∈ (aset m k v).map Prod.fst, k2 ∈ m.map Prod.fst ∨ k2 = k := by
  induction m with
  | nil => simp [aset]
  | cons hd t ih =>
      obtain ⟨k1, v1⟩ := hd
      intro k2 hk2
      by_cases hk : k1 = k
      · cases hk
        simp only [aset, if_true, eq_self_iff_true, List.map_cons, List.mem_cons] at hk2
        simp only [List.map_cons, List.mem_cons]
        rcases hk2 with h1 | h2
        · exact Or.inr h1
        · exact Or.inl (Or.inr h2)
      · simp only [aset, if_neg hk, List.map_cons, List.mem_cons] at hk2
        simp only [List.map_cons, List.mem_cons]
        rcases hk2 with h1 | h2
        · exact Or.inl (Or.inl h1)
        · rcases ih k2 h2 with h3 | h4
          · exact Or.inl (Or.inr h3)
          · exact Or.inr h4

theorem keysNodup_aset {α : Type} (m : List (Nat × α)) (k : Nat) (v : α)
    (h : keysNodup m) : keysNodup (aset m k v) := by
  induction m with
  | nil => simp [aset, keysNodup]
  | cons hd t ih =>
      obtain ⟨k1, v1⟩ := hd
      unfold keysNodup at h
      simp only [List.map_cons, List.nodup_cons] at h
      by_cases hk : k1 = k
      · cases hk
        unfold keysNodup
        simp only [aset, if_true, eq_self_iff_true, List.map_cons, List.nodup_cons]
        exact h
      · unfold keysNodup
        simp only [aset, if_neg hk, List.map_cons, List.nodup_cons]
        refine ⟨fun hc => ?_, ih h.2⟩
        rcases aset_keys_subset t k v k1 hc with h3 | h4
        · exact h.1 h3
        · exact hk h4

/-- Under distinct keys, a map entry is characterised by alookup. -/
theorem mem_iff_alookup {α : Type} (m : List (Nat × α)) (k : Nat) (v : α)
    (h : keysNodup m) : (k, v) ∈ m ↔ alookup m k = some v := by
  induction m with
  | nil => simp [alookup]
  | cons hd t ih =>
      obtain ⟨k1, v1⟩ := hd
      unfold keysNodup at h
      simp only [List.map_cons, List.nodup_cons] at h
      by_cases hk : k1 = k
      · cases hk
        simp only [alookup, if_true, eq_self_iff_true, List.mem_cons]
        constructor
        · intro hc
          rcases hc with h1 | h2
          · cases h1
            rfl
          · exact absurd (List.mem_map_of_mem Prod.fst h2) h.1
        · intro hc
          exact Or.inl (by cases hc; rfl)
      · simp only [alookup, if_neg hk, List.mem_cons]
        rw [ih h.2]
        constructor
        · intro hc
          rcases hc with h1 | h2
          · cases h1
            exact absurd rfl hk
          · exact h2
        · exact Or.inr

/-! ### Data model: jobs table, lease records (TaskQueue Durable Object) -/

/-- state column of the jobs table:
queued, leased, fetched, parsed, delivered, failed. -/
inductive JobState where
  | queued
  | leased
  | fetched
  | parsed
  | delivered
  | failed
deriving DecidableEq, Repr

/-- A row of the D1 jobs table. String-valued columns (ids, task_name, url,
content_type, params_json) are Nat tokens; error_message is kept as a String
because the delivery worker writes formatted messages into it. -/
structure JobRow where
  job_id : Nat
  browser_id : Nat
  task_name : Nat
  url : Nat
  content_type : Nat
  state : JobState
  priority : Int
  attempts : Nat
  lease_id : Option Nat
  lease_until : Option Nat
  callback_url : Option Nat
  callback_secret_id : Option Nat
  created_at : Nat
  updated_at : Nat
  error_message : Option String
deriving DecidableEq, Repr

/-- interface TaskLease of the TaskQueue Durable Object. -/
structure TaskLease where
  jobId : Nat
  leaseId : Nat
  browserId : Nat
  leaseUntil : Nat
  heartbeatCount : Nat
  createdAt : Nat
deriving DecidableEq, Repr

/-- A row of the D1 artifacts table (pointers into R2). -/
structure ArtifactRow where
  job_id : Nat
  raw_r2_key : Nat
  raw_sha256 : Nat
  raw_bytes : Nat
  raw_content_type : Nat
  created_at : Nat
  updated_at : Nat
deriving DecidableEq, Repr

/-- Webhook phases. -/
inductive Phase where
  | ingested
  | parsed
deriving DecidableEq, Repr

/-- interface WebhookMessage consumed from the CALLBACKS_QUEUE. -/
structure WebhookMsg where
  job_id : Nat
  phase : Phase
  callback_url : Nat
  callback_secret_id : Option Nat
deriving DecidableEq, Repr

/-- A row of the D1 callbacks table (delivery attempts). -/
structure CallbackRow where
  delivery_id : Nat
  job_id : Nat
  phase : Phase
  url : Nat
  status_code : Option Nat
  attempts : Nat
  last_error : Option String
  created_at : Nat
  updated_at : Nat
  delivered_at : Option Nat
deriving DecidableEq, Repr

/-- The whole modelled system: the TaskQueue Durable Object in-memory state
(leases, browserLeases), its durable storage snapshot, the D1 tables, the
CALLBACKS_QUEUE backlog (messages with their delaySeconds), and the two
fresh-id supplies. -/
structure SysState where
  leases : List (Nat × TaskLease) := []
  browserLeases : List (Nat × List Nat) := []
  storage : List (Nat × TaskLease) := []
  nextLeaseId : Nat := 0
  jobs : List JobRow := []
  artifacts : List ArtifactRow := []
  callbacks : List CallbackRow := []
  callbackQueue : List (WebhookMsg × Nat) := []
  nextDeliveryId : Nat := 0
deriving DecidableEq, Repr

/-! ### SQL helpers -/

/-- UPDATE ... SET f WHERE p over the jobs table; second component is the
number of matching rows (the changes count D1 reports). -/
def updateWhere (p : JobRow → Prop) [DecidablePred p] (f : JobRow → JobRow)
    (db : List JobRow) : List JobRow × Nat :=
  (db.map fun r => if p r then f r else r, db.countP fun r => decide (p r))

/-- SELECT ... FROM jobs WHERE job_id = ? (job_id is the primary key). -/
def findRow (db : List JobRow) (jobId : Nat) : Option JobRow :=
  db.find? fun r => decide (r.job_id = jobId)

/-! ### TaskQueue Durable Object operations (src/unnamed/part_011) -/

/-- The 30 minute lease duration hard-coded in createLease and
handleHeartbeat. -/
def leaseDurationMs : Nat := 30 * 60 * 1000

/-- isTimestampExpired from utils/ids: Date.now() > timestamp. -/
def isTimestampExpired (now ts : Nat) : Prop := ts < now

instance (now ts : Nat) : Decidable (isTimestampExpired now ts) :=
  inferInstanceAs (Decidable (ts < now))

/-- Browser index update in createLease: browserLeases.get(browserId).add(jobId),
creating the Set if absent. -/
def browserIndexAdd (idx : List (Nat × List Nat)) (b j : Nat) :
    List (Nat × List Nat) :=
  match alookup idx b with
  | none => aset idx b [j]
  | some js => aset idx b (if j ∈ js then js else js ++ [j])

/-- Browser index update in releaseLease: delete jobId from the Set and drop
the browser key when the Set becomes empty. -/
def browserIndexRemove (idx : List (Nat × List Nat)) (b j : Nat) :
    List (Nat × List Nat) :=
  match alookup idx b with
  | none => idx
  | some js =>
      let js2 := js.filter fun x => decide (x ≠ j)
      if js2.isEmpty then aerase idx b else aset idx b js2

/-- The conditional Job Store write of TaskQueue.createLease:
UPDATE jobs SET state = leased, lease_id, lease_until, updated_at
WHERE job_id = ? AND state = queued. -/
def sqlLeaseUpdate (jobId leaseId leaseUntil now : Nat) (db : List JobRow) :
    List JobRow × Nat :=
  updateWhere (fun r => r.job_id = jobId ∧ r.state = JobState.queued)
    (fun r => { r with state := JobState.leased, lease_id := some leaseId,
                       lease_until := some leaseUntil, updated_at := now }) db

/-- TaskQueue.createLease. generateLeaseId is modelled by the nextLeaseId
counter. Returns the updated state and the lease on success; on a failed
conditional update (changes = 0) no lease record is created. -/
def createLease (st : SysState) (task : JobRow) (browserId now : Nat) :
    SysState × Option TaskLease :=
  let jobId := task.job_id
  let leaseId := st.nextLeaseId
  let leaseUntil := now + leaseDurationMs
  let res := sqlLeaseUpdate jobId leaseId leaseUntil now st.jobs
  if res.2 = 0 then
    ({ st with jobs := res.1, nextLeaseId := leaseId + 1 }, none)
  else
    let lease : TaskLease :=
      { jobId := jobId, leaseId := leaseId, browserId := browserId,
        leaseUntil := leaseUntil, heartbeatCount := 0, createdAt := now }
    ({ st with jobs := res.1,
               leases := aset st.leases jobId lease,
               browserLeases := browserIndexAdd st.browserLeases browserId jobId,
               nextLeaseId := leaseId + 1 }, some lease)

/-- TaskQueue.releaseLease: removes the lease record from memory (and the
browser index); it does not touch the jobs table. -/
def releaseLease (st : SysState) (jobId : Nat) : SysState :=
  match alookup st.leases jobId with
  | none => st
  | some lease =>
      { st with leases := aerase st.leases jobId,
                browserLeases := browserIndexRemove st.browserLeases lease.browserId jobId }

/-- TaskQueue.saveState: state.storage.put of the lease map entries. -/
def saveState (st : SysState) : SysState :=
  { st with storage := st.leases }

/-- The D1 write of cleanupExpiredLeases:
UPDATE jobs SET state = queued, lease_id = NULL, lease_until = NULL,
attempts = attempts + 1, updated_at = ? WHERE job_id = ?. -/
def sqlRequeueJob (now jobId : Nat) (db : List JobRow) : List JobRow × Nat :=
  updateWhere (fun r => r.job_id = jobId)
    (fun r => { r with state := JobState.queued, lease_id := none,
                       lease_until := none, attempts := r.attempts + 1,
                       updated_at := now }) db

/-- One iteration of the cleanup loop: the D1 requeue write followed by
releaseLease. -/
def cleanupStep (now : Nat) (st : SysState) (jobId : Nat) : SysState :=
  releaseLease { st with jobs := (sqlRequeueJob now jobId st.jobs).1 } jobId

/-- TaskQueue.cleanupExpiredLeases: collect the jobs whose lease has
isTimestampExpired lease_until, then requeue and release each. It does not
call saveState itself. -/
def cleanupExpiredLeases (st : SysState) (now : Nat) : SysState :=
  let expired := (st.leases.filter fun p => decide (isTimestampExpired now p.2.leaseUntil)).map Prod.fst
  expired.foldl (cleanupStep now) st

/-- TaskQueue.findAvailableTasks ordering:
ORDER BY priority DESC, created_at ASC. -/
def taskOrder (a b : JobRow) : Bool :=
  decide (b.priority < a.priority ∨ (a.priority = b.priority ∧ a.created_at ≤ b.created_at))

def insertSorted (le : JobRow → JobRow → Bool) (x : JobRow) :
    List JobRow → List JobRow
  | [] => [x]
  | y :: ys => if le x y then x :: y :: ys else y :: insertSorted le x ys

def sortRows (le : JobRow → JobRow → Bool) : List JobRow → List JobRow
  | [] => []
  | x :: xs => insertSorted le x (sortRows le xs)

/-- TaskQueue.findAvailableTasks:
SELECT ... FROM jobs WHERE browser_id = ? AND state = queued
ORDER BY priority DESC, created_at ASC LIMIT maxItems
(the model returns whole rows; the source selects a subset of columns). -/
def findAvailableTasks (db : List JobRow) (browserId maxItems : Nat) :
    List JobRow :=
  (sortRows taskOrder (db.filter fun r =>
    decide (r.browser_id = browserId ∧ r.state = JobState.queued))).take maxItems

/-- One granted item in the handleLease response (jobId, url, taskName,
contentType, leaseId, leaseUntil; additionalParams omitted as inert). -/
structure LeasedItem where
  jobId : Nat
  url : Nat
  taskName : Nat
  contentType : Nat
  leaseId : Nat
  leaseUntil : Nat
deriving DecidableEq, Repr

/-- The for-loop of TaskQueue.handleLease over the candidate tasks: try
createLease on each and collect the granted items in order. -/
def leaseLoop (st : SysState) (tasks : List JobRow) (browserId now : Nat) :
    SysState × List LeasedItem :=
  match tasks with
  | [] => (st, [])
  | t :: ts =>
      let res := createLease st t browserId now
      match res.2 with
      | none => leaseLoop res.1 ts browserId now
      | some lease =>
          let rest := leaseLoop res.1 ts browserId now
          (rest.1,
           { jobId := t.job_id, url := t.url, taskName := t.task_name,
             contentType := t.content_type, leaseId := lease.leaseId,
             leaseUntil := lease.leaseUntil } :: rest.2)

/-- TaskQueue.handleLease (the missing-browserId 400 branch is a pure input
validation and is not modelled): cleanup expired leases, select candidates,
lease them in order, save state, and answer with the granted items. -/
def handleLease (st : SysState) (browserId maxItems now : Nat) :
    SysState × List LeasedItem :=
  let st1 := cleanupExpiredLeases st now
  let tasks := findAvailableTasks st1.jobs browserId maxItems
  let res := leaseLoop st1 tasks browserId now
  (saveState res.1, res.2)

/-- Outcome of TaskQueue.handleHeartbeat: 400 Invalid lease, 410 Lease
expired, or success with the new leaseUntil and heartbeatCount. -/
inductive HeartbeatResult where
  | invalidLease
  | leaseExpired
  | ok (leaseUntil : Nat) (heartbeatCount : Nat)
deriving DecidableEq, Repr

/-- The D1 mirror write of a successful heartbeat:
UPDATE jobs SET lease_until = ?, updated_at = ? WHERE job_id = ?. -/
def sqlHeartbeatUpdate (leaseUntil now jobId : Nat) (db : List JobRow) :
    List JobRow × Nat :=
  updateWhere (fun r => r.job_id = jobId)
    (fun r => { r with lease_until := some leaseUntil, updated_at := now }) db

/-- TaskQueue.handleHeartbeat. Note the expired branch: it calls releaseLease
and returns 410 without any jobs-table write and without saveState. -/
def handleHeartbeat (st : SysState) (jobId leaseId now : Nat) :
    SysState × HeartbeatResult :=
  match alookup st.leases jobId with
  | none => (st, HeartbeatResult.invalidLease)
  | some lease =>
      if lease.leaseId ≠ leaseId then (st, HeartbeatResult.invalidLease)
      else if isTimestampExpired now lease.leaseUntil then
        (releaseLease st jobId, HeartbeatResult.leaseExpired)
      else
        let leaseUntil2 := now + leaseDurationMs
        let lease2 := { lease with leaseUntil := leaseUntil2,
                                   heartbeatCount := lease.heartbeatCount + 1 }
        (saveState { st with
            leases := aset st.leases jobId lease2,
            jobs := (sqlHeartbeatUpdate leaseUntil2 now jobId st.jobs).1 },
         HeartbeatResult.ok leaseUntil2 lease2.heartbeatCount)

/-- Outcome of TaskQueue.handleRelease. -/
inductive ReleaseResult where
  | invalidLease
  | ok
deriving DecidableEq, Repr

/-- TaskQueue.handleRelease: 400 on missing or mismatched lease, otherwise
releaseLease followed by saveState. -/
def handleRelease (st : SysState) (jobId leaseId : Nat) :
    SysState × ReleaseResult :=
  match alookup st.leases jobId with
  | none => (st, ReleaseResult.invalidLease)
  | some lease =>
      if lease.leaseId ≠ leaseId then (st, ReleaseResult.invalidLease)
      else (saveState (releaseLease st jobId), ReleaseResult.ok)

/-- Rebuild of the browserLeases index in the TaskQueue constructor. -/
def rebuildBrowserIndex (entries : List (Nat × TaskLease)) :
    List (Nat × List Nat) :=
  entries.foldl (fun idx p => browserIndexAdd idx p.2.browserId p.1) []

/-- The TaskQueue constructor after a restart: inside blockConcurrencyWhile
(before any request is served) the lease map is loaded from durable storage
and the browser index is rebuilt from it. The in-memory maps start empty. -/
def restartTaskQueue (st : SysState) : SysState :=
  { st with leases := st.storage,
            browserLeases := rebuildBrowserIndex st.storage }

/-- TaskQueue.alarm: cleanupExpiredLeases then saveState. -/
def alarmSweep (st : SysState) (now : Nat) : SysState :=
  saveState (cleanupExpiredLeases st now)

/-! ### handleSubmit (src/worker/handlers/index.ts) -/

inductive SubmitResult where
  | invalidJobOrLease
  | ok
deriving DecidableEq, Repr

/-- The lease validation read of handleSubmit:
SELECT ... FROM jobs WHERE job_id = ? AND lease_id = ? AND state = leased. -/
def sqlSubmitLookup (db : List JobRow) (jobId leaseId : Nat) : Option JobRow :=
  db.find? fun r =>
    decide (r.job_id = jobId ∧ r.lease_id = some leaseId ∧ r.state = JobState.leased)

/-- The jobs-table write of handleSubmit:
UPDATE jobs SET state = fetched, updated_at = ?, lease_id = NULL,
lease_until = NULL WHERE job_id = ?. -/
def sqlSubmitUpdate (now jobId : Nat) (db : List JobRow) : List JobRow × Nat :=
  updateWhere (fun r => r.job_id = jobId)
    (fun r => { r with state := JobState.fetched, updated_at := now,
                       lease_id := none, lease_until := none }) db

/-- INSERT OR REPLACE INTO artifacts keyed by job_id. -/
def artifactUpsert (rows : List ArtifactRow) (a : ArtifactRow) :
    List ArtifactRow :=
  if rows.any fun r => decide (r.job_id = a.job_id) then
    rows.map fun r => if r.job_id = a.job_id then a else r
  else rows ++ [a]

/-- handleSubmit. The content branch (base64 decode / R2 put / sha-256 of the
body) only produces the artifact pointer triple (r2Key, sha256, size), so the
model takes that triple as input. Note: it clears the lease columns in the
jobs row directly and never calls the TaskQueue Durable Object release, so
st.leases / st.browserLeases / st.storage are untouched. -/
def handleSubmit (st : SysState) (jobId leaseId r2Key sha256 size now : Nat) :
    SysState × SubmitResult :=
  match sqlSubmitLookup st.jobs jobId leaseId with
  | none => (st, SubmitResult.invalidJobOrLease)
  | some job =>
      let st2 := { st with
        jobs := (sqlSubmitUpdate now jobId st.jobs).1,
        artifacts := artifactUpsert st.artifacts
          { job_id := jobId, raw_r2_key := r2Key, raw_sha256 := sha256,
            raw_bytes := size, raw_content_type := job.content_type,
            created_at := now, updated_at := now } }
      let st3 :=
        match job.callback_url with
        | some u =>
            { st2 with callbackQueue := st2.callbackQueue ++
                [({ job_id := jobId, phase := Phase.ingested, callback_url := u,
                    callback_secret_id := job.callback_secret_id }, 0)] }
        | none => st2
      (st3, SubmitResult.ok)

/-! ### SHA-256 / HMAC-SHA256 (the crypto.subtle primitives used by
createWebhookSignature), FIPS 180-4 / RFC 2104 over byte lists. -/

/-- Truncation to a 32-bit word. -/
def w32 (n : Nat) : Nat := n % 4294967296

/-- 32-bit right rotation. -/
def rotr32 (n x : Nat) : Nat := w32 ((x >>> n) ||| (x <<< (32 - n)))

def sha256K : List Nat :=
  [1116352408, 1899447441, 3049323471, 3921009573, 961987163,
   1508970993, 2453635748, 2870763221, 3624381080, 310598401,
   607225278, 1426881987, 1925078388, 2162078206, 2614888103,
   3248222580, 3835390401, 4022224774, 264347078, 604807628,
   770255983, 1249150122, 1555081692, 1996064986, 2554220882,
   2821834349, 2952996808, 3210313671, 3336571891, 3584528711,
   113926993, 338241895, 666307205, 773529912, 1294757372,
   1396182291, 1695183700, 1986661051, 2177026350, 2456956037,
   2730485921, 2820302411, 3259730800, 3345764771, 3516065817,
   3600352804, 4094571909, 275423344, 430227734, 506948616,
   659060556, 883997877, 958139571, 1322822218, 1537002063,
   1747873779, 1955562222, 2024104815, 2227730452, 2361852424,
   2428436474, 2756734187, 3204031479, 3329325298]

def sha256H0 : List Nat :=
  [1779033703, 3144134277, 1013904242,
   2773480762, 1359893119, 2600822924,
   528734635, 1541459225]

def ssig0 (x : Nat) : Nat := rotr32 7 x ^^^ rotr32 18 x ^^^ (x >>> 3)
def ssig1 (x : Nat) : Nat := rotr32 17 x ^^^ rotr32 19 x ^^^ (x >>> 10)
def bsig0 (x : Nat) : Nat := rotr32 2 x ^^^ rotr32 13 x ^^^ rotr32 22 x
def bsig1 (x : Nat) : Nat := rotr32 6 x ^^^ rotr32 11 x ^^^ rotr32 25 x

/-- Message-schedule extension: append words 16..63. -/
def extendW : List Nat → Nat → List Nat
  | ws, 0 => ws
  | ws, n + 1 =>
      let m := ws.length
      extendW (ws ++ [w32 (ssig1 (ws.getD (m - 2) 0) + ws.getD (m - 7) 0 +
                           ssig0 (ws.getD (m - 15) 0) + ws.getD (m - 16) 0)]) n

/-- One compression round; the state is the list [a, b, c, d, e, f, g, h] and
kw is the sum of the round constant and the schedule word. -/
def sha256Round (st : List Nat) (kw : Nat) : List Nat :=
  let a := st.getD 0 0
  let b := st.getD 1 0
  let c := st.getD 2 0
  let d := st.getD 3 0
  let e := st.getD 4 0
  let f := st.getD 5 0
  let g := st.getD 6 0
  let h := st.getD 7 0
  let ch := (e &&& f) ^^^ ((e ^^^ 4294967295) &&& g)
  let maj := (a &&& b) ^^^ (a &&& c) ^^^ (b &&& c)
  let t1 := w32 (h + bsig1 e + ch + kw)
  let t2 := w32 (bsig0 a + maj)
  [w32 (t1 + t2), a, b, c, w32 (d + t1), e, f, g]

/-- Big-endian conversion of a byte list into 32-bit words. -/
def bytesToWords : List Nat → List Nat
  | b0 :: b1 :: b2 :: b3 :: rest =>
      (b0 * 16777216 + b1 * 65536 + b2 * 256 + b3) :: bytesToWords rest
  | _ => []

/-- Compress a single 64-byte block into the running hash. -/
def sha256Block (h : List Nat) (block : List Nat) : List Nat :=
  let ws := extendW (bytesToWords block) 48
  let kw := List.zipWith (fun k w => k + w) sha256K ws
  let fin := kw.foldl sha256Round h
  List.zipWith (fun x y => w32 (x + y)) h fin

/-- SHA-256 padding: 0x80, zeros, and the 8-byte big-endian bit length. -/
def shaPad (msg : List Nat) : List Nat :=
  let L := msg.length
  let z := (120 - (L + 1) % 64) % 64
  msg ++ [128] ++ List.replicate z 0 ++
    (List.range 8).map fun i => ((8 * L) >>> (8 * (7 - i))) % 256

/-- Split into 64-byte blocks; the fuel argument (an upper bound on the number
of blocks) makes the recursion structural. -/
def chunks64Go : Nat → List Nat → List (List Nat)
  | 0, _ => []
  | _, [] => []
  | fuel + 1, l => l.take 64 :: chunks64Go fuel (l.drop 64)

def chunks64 (l : List Nat) : List (List Nat) :=
  chunks64Go l.length l

def wordsToBytes (ws : List Nat) : List Nat :=
  (ws.map fun w => [(w >>> 24) % 256, (w >>> 16) % 256, (w >>> 8) % 256, w % 256]).flatten

/-- SHA-256 of a byte list. -/
def sha256 (msg : List Nat) : List Nat :=
  wordsToBytes ((chunks64 (shaPad msg)).foldl sha256Block sha256H0)

/-- HMAC-SHA256 (RFC 2104) with a 64-byte block size. -/
def hmacSha256 (key msg : List Nat) : List Nat :=
  let k0 := if 64 < key.length then sha256 key else key
  let kp := k0 ++ List.replicate (64 - k0.length) 0
  sha256 ((kp.map fun b => b ^^^ 92) ++ sha256 ((kp.map fun b => b ^^^ 54) ++ msg))

/-! ### Webhook signatures (src/worker/utils/http.ts) -/

/-- The byte string "sha256=". -/
def sigPrefix : List Nat := [115, 104, 97, 50, 53, 54, 61]

/-- b.toString(16) digit: 0-9 then a-f, as ASCII bytes. -/
def hexDigitByte (n : Nat) : Nat := if n < 10 then 48 + n else 87 + n

/-- toString(16).padStart(2, zero) over a byte list. -/
def hexBytes (bs : List Nat) : List Nat :=
  (bs.map fun b => [hexDigitByte (b / 16), hexDigitByte (b % 16)]).flatten

/-- createWebhookSignature: sha256= followed by the hex HMAC-SHA256 of the
payload bytes under the secret. -/
def createWebhookSignature (payload secret : List Nat) : List Nat :=
  sigPrefix ++ hexBytes (hmacSha256 secret payload)

/-- verifyWebhookSignature: prefix check, recompute the expected signature,
then the constant-time comparison (OR of the bytewise XORs must be 0). -/
def verifyWebhookSignature (payload signature secret : List Nat) : Bool :=
  if signature.take 7 = sigPrefix then
    let expected := createWebhookSignature payload secret
    if expected.length = signature.length then
      decide ((List.zipWith (fun a b => a ^^^ b) expected signature).foldl
        (fun r x => r ||| x) 0 = 0)
    else false
  else false

/-! ### Webhook delivery consumer (src/worker/handlers/parse-consumer.ts) -/

/-- getWebhookSecret: the hard-coded testSecrets table, falling back to
env.WEBHOOK_SECRET_KEY, else null. The table contents and the env key are
environment data and are parameters of the model. -/
def getWebhookSecret (testSecrets : List (Nat × List Nat))
    (envKey : Option (List Nat)) (sid : Nat) : Option (List Nat) :=
  match alookup testSecrets sid with
  | some s => some s
  | none => envKey

/-- What the fetch of a delivery attempt produced: an HTTP response observed
before the 30 second abort timer fired, or a thrown error (non-response:
timeout abort or network failure) with its message. -/
inductive FetchOutcome where
  | response (status : Nat)
  | failure (msg : String)
deriving DecidableEq, Repr

/-- The fixed 30s delivery timeout (setTimeout(() => controller.abort(), 30000)). -/
def webhookTimeoutMs : Nat := 30000

/-- response.ok: status in the 2xx range. -/
def httpOk (status : Nat) : Prop := 200 ≤ status ∧ status ≤ 299

instance (status : Nat) : Decidable (httpOk status) :=
  inferInstanceAs (Decidable (200 ≤ status ∧ status ≤ 299))

/-- The HTTP-failure message written to last_error (the statusText part is an
inert suffix and is omitted). -/
def httpErrorMessage (status : Nat) : String := "HTTP " ++ toString status

/-- The maxRetries constant of processWebhookMessage. -/
def maxRetries : Nat := 3

/-- recordDeliveryAttempt: INSERT OR REPLACE INTO callbacks keyed by
delivery_id. -/
def callbackUpsert (rows : List CallbackRow) (c : CallbackRow) :
    List CallbackRow :=
  if rows.any fun r => decide (r.delivery_id = c.delivery_id) then
    rows.map fun r => if r.delivery_id = c.delivery_id then c else r
  else rows ++ [c]

/-- updateDeliveryRecord: dynamic UPDATE of callbacks that sets exactly the
fields passed (none = the field was undefined and is left unchanged);
updated_at is always set. -/
def updateDeliveryRecord (rows : List CallbackRow) (deliveryId : Nat)
    (statusCode : Option Nat) (deliveredAt : Option Nat)
    (lastError : Option String) (attempts : Option Nat) (now : Nat) :
    List CallbackRow :=
  rows.map fun r =>
    if r.delivery_id = deliveryId then
      { r with
        status_code := (match statusCode with | some v => some v | none => r.status_code),
        delivered_at := (match deliveredAt with | some v => some v | none => r.delivered_at),
        last_error := (match lastError with | some v => some v | none => r.last_error),
        attempts := (match attempts with | some v => v | none => r.attempts),
        updated_at := now }
    else r

/-- incrementDeliveryAttempts:
UPDATE callbacks SET attempts = attempts + 1 ... RETURNING attempts,
with the JS fallback result?.attempts || 1 (0 and a missing row are falsy). -/
def incrementDeliveryAttempts (rows : List CallbackRow) (deliveryId now : Nat) :
    List CallbackRow × Nat :=
  let rows2 := rows.map fun r =>
    if r.delivery_id = deliveryId then
      { r with attempts := r.attempts + 1, updated_at := now }
    else r
  match rows2.find? fun r => decide (r.delivery_id = deliveryId) with
  | some r => (rows2, if r.attempts = 0 then 1 else r.attempts)
  | none => (rows2, 1)

/-- getDeliveryAttempts: SELECT attempts FROM callbacks WHERE delivery_id = ?,
with the JS fallback result?.attempts || 0. -/
def getDeliveryAttempts (rows : List CallbackRow) (deliveryId : Nat) : Nat :=
  match rows.find? fun r => decide (r.delivery_id = deliveryId) with
  | some r => r.attempts
  | none => 0

/-- UPDATE jobs SET state = failed, error_message = ?, updated_at = ?
WHERE job_id = ?. -/
def sqlFailJob (errMsg : String) (now jobId : Nat) (db : List JobRow) :
    List JobRow × Nat :=
  updateWhere (fun r => r.job_id = jobId)
    (fun r => { r with state := JobState.failed, error_message := some errMsg,
                       updated_at := now }) db

/-- UPDATE jobs SET state = delivered, updated_at = ? WHERE job_id = ?. -/
def sqlDeliverJob (now jobId : Nat) (db : List JobRow) : List JobRow × Nat :=
  updateWhere (fun r => r.job_id = jobId)
    (fun r => { r with state := JobState.delivered, updated_at := now }) db

/-- The headers of a delivery attempt that matter here: X-Delivery-Id is
always present; X-Signature only when a signature was computed. -/
structure WebhookHeaders where
  deliveryId : Nat
  signature : Option (List Nat)
deriving DecidableEq, Repr

/-- How a processWebhookMessage invocation ended. -/
inductive WebhookOutcome where
  | jobNotFound
  | delivered (status : Nat)
  | retryScheduled (delaySeconds : Nat)
  | failedPermanent
deriving DecidableEq, Repr

/-- The catch block of processWebhookMessage: increment the attempt counter,
record the error, then either requeue the same message with delaySeconds =
2 ^ attempts * 60 (when attempts < maxRetries) or mark the job failed. -/
def webhookCatch (st : SysState) (msg : WebhookMsg) (deliveryId : Nat)
    (errMsg : String) (now : Nat) : SysState × WebhookOutcome :=
  let inc := incrementDeliveryAttempts st.callbacks deliveryId now
  let cb2 := updateDeliveryRecord inc.1 deliveryId none none (some errMsg)
    (some inc.2) now
  let st2 := { st with callbacks := cb2 }
  let attempts := getDeliveryAttempts st2.callbacks deliveryId
  if attempts < maxRetries then
    ({ st2 with callbackQueue :=
        st2.callbackQueue ++ [(msg, 2 ^ attempts * 60)] },
     WebhookOutcome.retryScheduled (2 ^ attempts * 60))
  else
    ({ st2 with jobs :=
        (sqlFailJob ("Webhook delivery failed: " ++ errMsg) now msg.job_id st2.jobs).1 },
     WebhookOutcome.failedPermanent)

/-- The X-Signature computation of processWebhookMessage: only when the
message carries a secret reference and it resolves via getWebhookSecret is
the signature (createWebhookSignature of the payload under that secret)
present. -/
def signatureOf (msg : WebhookMsg) (testSecrets : List (Nat × List Nat))
    (envKey : Option (List Nat)) (payload : List Nat) : Option (List Nat) :=
  match msg.callback_secret_id with
  | some sid =>
      match getWebhookSecret testSecrets envKey sid with
      | some secret => some (createWebhookSignature payload secret)
      | none => none
  | none => none

/-- The row recordDeliveryAttempt inserts for a fresh attempt. -/
def freshCallbackRow (msg : WebhookMsg) (id now : Nat) : CallbackRow :=
  { delivery_id := id, job_id := msg.job_id, phase := msg.phase,
    url := msg.callback_url, status_code := none, attempts := 1,
    last_error := none, created_at := now, updated_at := now,
    delivered_at := none }

/-- processWebhookMessage. generateDeliveryId is modelled by the
nextDeliveryId counter (a fresh id on every invocation, retries included);
payload is the JSON.stringify of buildWebhookPayload as opaque bytes; fetch
is modelled by the given FetchOutcome. Returns the state, the outcome, and
the headers the attempt carried (none when no request was sent). -/
def processWebhookMessage (st : SysState) (msg : WebhookMsg)
    (testSecrets : List (Nat × List Nat)) (envKey : Option (List Nat))
    (payload : List Nat) (fetched : FetchOutcome) (now : Nat) :
    SysState × WebhookOutcome × Option WebhookHeaders :=
  match st.jobs.find? fun r => decide (r.job_id = msg.job_id) with
  | none => (st, WebhookOutcome.jobNotFound, none)
  | some job =>
      let deliveryId := st.nextDeliveryId
      let signature := signatureOf msg testSecrets envKey payload
      let headers : WebhookHeaders :=
        { deliveryId := deliveryId, signature := signature }
      let st1 := { st with
        nextDeliveryId := deliveryId + 1,
        callbacks := callbackUpsert st.callbacks
          (freshCallbackRow msg deliveryId now) }
      match fetched with
      | FetchOutcome.response status =>
          let cb2 := updateDeliveryRecord st1.callbacks deliveryId (some status)
            (if httpOk status then some now else none)
            (if httpOk status then none else some (httpErrorMessage status))
            none now
          let st2 := { st1 with callbacks := cb2 }
          if httpOk status then
            let st3 :=
              if msg.phase = Phase.ingested ∧ job.state = JobState.fetched then
                { st2 with jobs := (sqlDeliverJob now msg.job_id st2.jobs).1 }
              else st2
            (st3, WebhookOutcome.delivered status, some headers)
          else
            let res := webhookCatch st2 msg deliveryId (httpErrorMessage status) now
            (res.1, res.2, some headers)
      | FetchOutcome.failure m =>
          let res := webhookCatch st1 msg deliveryId m now
          (res.1, res.2, some headers)

/-! ### Helper lemmas about the SQL primitives -/

theorem findRow_mapRows (g : JobRow → JobRow)
    (hg : ∀ r, (g r).job_id = r.job_id) (db : List JobRow) (j : Nat) :
    findRow (db.map g) j = (findRow db j).map g := by
  induction db with
  | nil => rfl
  | cons r t ih =>
      unfold findRow at ih ⊢
      by_cases h : r.job_id = j
      · rw [List.map_cons,
          List.find?_cons_of_pos _ (by simp [hg, h]),
          List.find?_cons_of_pos _ (by simp [h])]
        rfl
      · rw [List.map_cons,
          List.find?_cons_of_neg _ (by simp [hg, h]),
          List.find?_cons_of_neg _ (by simp [h])]
        exact ih

theorem updateWhere_rows (p : JobRow → Prop) [DecidablePred p]
    (f : JobRow → JobRow) (db : List JobRow) :
    (updateWhere p f db).1 = db.map fun r => if p r then f r else r := rfl

theorem updateWhere_changes_zero (p : JobRow → Prop) [DecidablePred p]
    (f : JobRow → JobRow) (db : List JobRow)
    (h : (updateWhere p f db).2 = 0) : (updateWhere p f db).1 = db := by
  unfold updateWhere at h ⊢
  simp only at h ⊢
  induction db with
  | nil => rfl
  | cons r t ih =>
      rw [List.countP_cons] at h
      by_cases hp : p r
      · simp [hp] at h
      · simp only [List.map_cons, if_neg hp]
        rw [ih (by simpa [hp] using h)]

theorem updateWhere_changes_pos (p : JobRow → Prop) [DecidablePred p]
    (f : JobRow → JobRow) (db : List JobRow)
    (h : (updateWhere p f db).2 ≠ 0) : ∃ r ∈ db, p r := by
  unfold updateWhere at h
  simp only at h
  have := List.countP_pos.mp (Nat.pos_of_ne_zero h)
  obtain ⟨r, hr, hp⟩ := this
  exact ⟨r, hr, of_decide_eq_true hp⟩

/-- A successful heartbeat (valid lease id, not expired) and its full effect. -/
theorem heartbeat_ok_eq (st : SysState) (jobId leaseId t : Nat) (lease : TaskLease)
    (hlk : alookup st.leases jobId = some lease)
    (hid : lease.leaseId = leaseId)
    (hne : t ≤ lease.leaseUntil) :
    handleHeartbeat st jobId leaseId t =
      (saveState { st with
          leases := aset st.leases jobId
            { lease with leaseUntil := t + leaseDurationMs,
                         heartbeatCount := lease.heartbeatCount + 1 },
          jobs := (sqlHeartbeatUpdate (t + leaseDurationMs) t jobId st.jobs).1 },
       HeartbeatResult.ok (t + leaseDurationMs) (lease.heartbeatCount + 1)) := by
  unfold handleHeartbeat
  rw [hlk]
  simp only [hid, ne_eq, not_true_eq_false, if_false]
  rw [if_neg (by simp only [isTimestampExpired]; omega)]

/-- An expired heartbeat (valid lease id, lease_until < now) releases the
in-memory lease and answers 410. -/
theorem heartbeat_expired_eq (st : SysState) (jobId leaseId t : Nat) (lease : TaskLease)
    (hlk : alookup st.leases jobId = some lease)
    (hid : lease.leaseId = leaseId)
    (hexp : lease.leaseUntil < t) :
    handleHeartbeat st jobId leaseId t =
      (releaseLease st jobId, HeartbeatResult.leaseExpired) := by
  unfold handleHeartbeat
  rw [hlk]
  simp only [hid, ne_eq, not_true_eq_false, if_false]
  rw [if_pos (by simpa only [isTimestampExpired] using hexp)]

/-- C6: on a valid lease, a heartbeat at time t with t ≤ lease_until succeeds,
sets leaseUntil to t + leaseDurationMs (a fixed duration from now, not from
the old deadline) and increments heartbeatCount by one; two successive
successful heartbeats at strictly increasing times strictly increase both
leaseUntil and heartbeatCount; and a heartbeat with lease_until < now fails
with 410 Lease expired instead of extending. -/
theorem heartbeat_monotonicity
    (st : SysState) (jobId leaseId : Nat) (lease : TaskLease)
    (hlk : alookup st.leases jobId = some lease)
    (hid : lease.leaseId = leaseId) :
    (∀ t, t ≤ lease.leaseUntil →
      (handleHeartbeat st jobId leaseId t).2 =
        HeartbeatResult.ok (t + leaseDurationMs) (lease.heartbeatCount + 1)) ∧
    (∀ t1 t2, t1 ≤ lease.leaseUntil → t1 < t2 → t2 ≤ t1 + leaseDurationMs →
      ∃ u1 c1 u2 c2,
        (handleHeartbeat st jobId leaseId t1).2 = HeartbeatResult.ok u1 c1 ∧
        (handleHeartbeat (handleHeartbeat st jobId leaseId t1).1 jobId leaseId t2).2 =
          HeartbeatResult.ok u2 c2 ∧
        u1 < u2 ∧ c1 < c2) ∧
    (∀ t, lease.leaseUntil < t →
      (handleHeartbeat st jobId leaseId t).2 = HeartbeatResult.leaseExpired) := by
  refine ⟨?_, ?_, ?_⟩
  · intro t ht
    rw [heartbeat_ok_eq st jobId leaseId t lease hlk hid ht]
  · intro t1 t2 ht1 hlt ht2
    rw [heartbeat_ok_eq st jobId leaseId t1 lease hlk hid ht1]
    have hlk2 : alookup (saveState { st with
        leases := aset st.leases jobId
          { lease with leaseUntil := t1 + leaseDurationMs,
                       heartbeatCount := lease.heartbeatCount + 1 },
        jobs := (sqlHeartbeatUpdate (t1 + leaseDurationMs) t1 jobId st.jobs).1 }).leases jobId =
        some { lease with leaseUntil := t1 + leaseDurationMs,
                          heartbeatCount := lease.heartbeatCount + 1 } := by
      unfold saveState
      exact alookup_aset_self _ _ _
    rw [heartbeat_ok_eq _ jobId leaseId t2 _ hlk2 hid ht2]
    refine ⟨t1 + leaseDurationMs, lease.heartbeatCount + 1,
            t2 + leaseDurationMs, lease.heartbeatCount + 2, rfl, rfl, ?_, ?_⟩
    · omega
    · omega
  · intro t ht
    rw [heartbeat_expired_eq st jobId leaseId t lease hlk hid ht]

/-- A one-lease sample state for witnesses: job 1 held by browser 7 under
lease id 10 until t = 1000. -/
def hbLease : TaskLease :=
  { jobId := 1, leaseId := 10, browserId := 7, leaseUntil := 1000,
    heartbeatCount := 0, createdAt := 0 }

def hbState : SysState := { leases := [(1, hbLease)] }

theorem heartbeat_monotonicity_witness :
    ((handleHeartbeat hbState 1 10 500).2 =
       HeartbeatResult.ok (500 + leaseDurationMs) 1) ∧
    (handleHeartbeat hbState 1 10 1500).2 = HeartbeatResult.leaseExpired := by
  have h := heartbeat_monotonicity hbState 1 10 hbLease (by decide) rfl
  exact ⟨h.1 500 (by decide), h.2.2 1500 (by decide)⟩

/-- A queued sample job for browser 7. -/
def sampleJobQueued : JobRow :=
  { job_id := 1, browser_id := 7, task_name := 3, url := 4, content_type := 5,
    state := JobState.queued, priority := 0, attempts := 0, lease_id := none,
    lease_until := none, callback_url := none, callback_secret_id := none,
    created_at := 0, updated_at := 0, error_message := none }

/-- The same job once leased under lease id 10 (matching hbLease). -/
def sampleJobLeased : JobRow :=
  { sampleJobQueued with state := JobState.leased, lease_id := some 10,
                         lease_until := some 1000 }

/-- A consistent one-job, one-lease system state. -/
def subState : SysState :=
  { leases := [(1, hbLease)], browserLeases := [(7, [1])],
    storage := [(1, hbLease)], jobs := [sampleJobLeased] }

/-- C9 counterexample: a successful content submission does not invoke the
coordinator release — after handleSubmit succeeds on the leased job, the
lease record for job 1 is still present in the lease index (release would
have removed it). -/
theorem submit_does_not_release_cex :
    (handleSubmit subState 1 10 100 200 300 2000).2 = SubmitResult.ok ∧
    alookup (handleSubmit subState 1 10 100 200 300 2000).1.leases 1 = some hbLease := by
  decide

/-- C9 as amended: handleRelease answers Invalid when no lease exists for the
job or the supplied leaseId mismatches; otherwise it removes the lease record
and leaves the jobs table (in particular the state column) untouched. A
successful content submission does not invoke release: handleSubmit leaves
the coordinator lease index, browser index and durable storage unchanged, and
instead directly sets the job row to fetched with its lease columns cleared. -/
theorem release_semantics (st : SysState) (jobId leaseId : Nat) :
    (alookup st.leases jobId = none →
      handleRelease st jobId leaseId = (st, ReleaseResult.invalidLease)) ∧
    (∀ lease, alookup st.leases jobId = some lease → lease.leaseId ≠ leaseId →
      handleRelease st jobId leaseId = (st, ReleaseResult.invalidLease)) ∧
    (∀ lease, alookup st.leases jobId = some lease → lease.leaseId = leaseId →
      (handleRelease st jobId leaseId).2 = ReleaseResult.ok ∧
      (keysNodup st.leases →
        alookup (handleRelease st jobId leaseId).1.leases jobId = none) ∧
      (handleRelease st jobId leaseId).1.jobs = st.jobs) ∧
    (∀ r2Key sha size now,
      (handleSubmit st jobId leaseId r2Key sha size now).1.leases = st.leases ∧
      (handleSubmit st jobId leaseId r2Key sha size now).1.browserLeases = st.browserLeases ∧
      (handleSubmit st jobId leaseId r2Key sha size now).1.storage = st.storage ∧
      (∀ job, sqlSubmitLookup st.jobs jobId leaseId = some job →
        (handleSubmit st jobId leaseId r2Key sha size now).2 = SubmitResult.ok ∧
        (handleSubmit st jobId leaseId r2Key sha size now).1.jobs =
          (sqlSubmitUpdate now jobId st.jobs).1)) := by
  refine ⟨?_, ?_, ?_, ?_⟩
  · intro h
    unfold handleRelease
    rw [h]
  · intro lease hlk hne
    unfold handleRelease
    rw [hlk]
    simp [hne]
  · intro lease hlk heq
    unfold handleRelease
    rw [hlk]
    simp only [hlk, heq, ne_eq, not_true_eq_false, if_false]
    refine ⟨trivial, ?_, ?_⟩
    · intro hnd
      unfold saveState releaseLease
      rw [hlk]
      exact alookup_aerase_self _ _ hnd
    · unfold saveState releaseLease
      rw [hlk]
  · intro r2Key sha size now
    unfold handleSubmit
    cases hlk : sqlSubmitLookup st.jobs jobId leaseId with
    | none => exact ⟨rfl, rfl, rfl, fun job hj => by cases hj⟩
    | some job =>
        cases hcb : job.callback_url with
        | none =>
            refine ⟨by simp [hcb], by simp [hcb], by simp [hcb], fun job2 hj => ?_⟩
            cases hj
            simp [hcb]
        | some u =>
            refine ⟨by simp [hcb], by simp [hcb], by simp [hcb], fun job2 hj => ?_⟩
            cases hj
            simp [hcb]

theorem release_semantics_witness :
    alookup subState.leases 1 = some hbLease ∧
    hbLease.leaseId = 10 ∧
    (handleRelease subState 1 10).2 = ReleaseResult.ok ∧
    (handleRelease subState 1 10).1.jobs = subState.jobs := by
  have h := release_semantics subState 1 10
  have h3 := h.2.2.1 hbLease (by decide) rfl
  exact ⟨by decide, rfl, h3.1, h3.2.2⟩

/-- The job row the sweep should produce from sampleJobLeased at t = 1500:
back to queued, lease columns cleared, attempts bumped to 1. -/
def sampleJobRequeued : JobRow :=
  { sampleJobLeased with state := JobState.queued, lease_id := none,
                         lease_until := none, attempts := 1, updated_at := 1500 }

/-- C2, evaluated at the failing input (lease on job 1 with lease_until =
1000, sweep / heartbeat at t = 1500): the expiry sweep transitions the job
back to queued with attempts incremented by exactly 1 and removes the lease
record, as claimed; but a heartbeat attempt on the same expired lease, while
failing with 410 Lease expired and removing the lease record, leaves the job
row in state leased with attempts unchanged — it never transitions the job
back to queued, so the job can no longer be selected for leasing. -/
theorem expiry_reclamation_divergence :
    ((cleanupExpiredLeases subState 1500).jobs = [sampleJobRequeued] ∧
     alookup (cleanupExpiredLeases subState 1500).leases 1 = none) ∧
    ((handleHeartbeat subState 1 10 1500).2 = HeartbeatResult.leaseExpired ∧
     alookup (handleHeartbeat subState 1 10 1500).1.leases 1 = none ∧
     (handleHeartbeat subState 1 10 1500).1.jobs = [sampleJobLeased]) := by
  decide

/-- C5 counterexample: the lease removal performed by an expired heartbeat is
not written through to durable storage before the call returns — afterwards
the in-memory lease map is empty while storage still holds the lease, and a
restart resurrects the removed lease from the stale snapshot. -/
theorem persistence_cex :
    (handleHeartbeat subState 1 10 1500).1.leases = [] ∧
    (handleHeartbeat subState 1 10 1500).1.storage = [(1, hbLease)] ∧
    (restartTaskQueue (handleHeartbeat subState 1 10 1500).1).leases =
      [(1, hbLease)] := by
  decide

/-- C5 as amended: on restart the lease index is rebuilt from the durable
snapshot before any request is served; handleLease and the alarm sweep always
return with storage equal to the lease map; handleRelease either leaves the
state untouched (invalid lease) or returns with storage equal to the lease
map; handleHeartbeat does so too except on its expired branch, which removes
the lease from memory but returns with storage unchanged (the one mutation
that is not persisted before returning). -/
theorem lease_index_persistence (st : SysState) :
    (restartTaskQueue st).leases = st.storage ∧
    (∀ b m t, (handleLease st b m t).1.storage = (handleLease st b m t).1.leases) ∧
    (∀ t, (alarmSweep st t).storage = (alarmSweep st t).leases) ∧
    (∀ j l, (handleRelease st j l).1 = st ∨
      (handleRelease st j l).1.storage = (handleRelease st j l).1.leases) ∧
    (∀ j l t,
      ((handleHeartbeat st j l t).2 = HeartbeatResult.leaseExpired ∧
        (handleHeartbeat st j l t).1.storage = st.storage) ∨
      (handleHeartbeat st j l t).1 = st ∨
      (handleHeartbeat st j l t).1.storage = (handleHeartbeat st j l t).1.leases) := by
  refine ⟨rfl, fun b m t => rfl, fun t => rfl, ?_, ?_⟩
  · intro j l
    unfold handleRelease
    cases hlk : alookup st.leases j with
    | none => exact Or.inl rfl
    | some lease =>
        by_cases hid : lease.leaseId ≠ l
        · simp only [if_pos hid]
          left
          trivial
        · simp only [if_neg hid]
          right
          trivial
  · intro j l t
    unfold handleHeartbeat
    cases hlk : alookup st.leases j with
    | none => exact Or.inr (Or.inl rfl)
    | some lease =>
        by_cases hid : lease.leaseId ≠ l
        · simp only [if_pos hid]
          right
          left
          trivial
        · simp only [if_neg hid]
          by_cases hexp : isTimestampExpired t lease.leaseUntil
          · simp only [if_pos hexp]
            refine Or.inl ⟨by trivial, ?_⟩
            unfold releaseLease
            cases alookup st.leases j with
            | none => rfl
            | some lease2 => rfl
          · simp only [if_neg hexp]
            right
            right
            trivial

/-! ### Lease coordinator invariants (mutual exclusion machinery) -/

def jobsNodup (db : List JobRow) : Prop := (db.map JobRow.job_id).Nodup

/-- The (job_id, browser_id) projection of the jobs table; lease operations
never change it. -/
def browserOf (db : List JobRow) : List (Nat × Nat) :=
  db.map fun r => (r.job_id, r.browser_id)

/-- Index-to-store agreement: every lease record is mirrored by a jobs row in
state leased carrying the same lease id, owned by the same browser. -/
def leaseAgrees (st : SysState) : Prop :=
  ∀ j lease, alookup st.leases j = some lease →
    ∃ r, findRow st.jobs j = some r ∧ r.state = JobState.leased ∧
         r.lease_id = some lease.leaseId ∧ r.browser_id = lease.browserId

/-- Store-to-index agreement: every leased jobs row is backed by a lease
record with the same lease id. -/
def storeBacked (st : SysState) : Prop :=
  ∀ r ∈ st.jobs, r.state = JobState.leased →
    ∃ lease, alookup st.leases r.job_id = some lease ∧
             r.lease_id = some lease.leaseId

/-- The consistency invariant of the coordinator. -/
def goodState (st : SysState) : Prop :=
  keysNodup st.leases ∧ jobsNodup st.jobs ∧ leaseAgrees st ∧ storeBacked st

theorem findRow_some_job_id (db : List JobRow) (j : Nat) (r : JobRow)
    (h : findRow db j = some r) : r.job_id = j := by
  have := List.find?_some h
  exact of_decide_eq_true this

theorem mem_of_findRow (db : List JobRow) (j : Nat) (r : JobRow)
    (h : findRow db j = some r) : r ∈ db :=
  List.mem_of_find?_eq_some h

theorem row_unique (db : List JobRow) (r1 r2 : JobRow) (hn : jobsNodup db)
    (h1 : r1 ∈ db) (h2 : r2 ∈ db) (he : r1.job_id = r2.job_id) : r1 = r2 := by
  unfold jobsNodup at hn
  induction db with
  | nil => cases h1
  | cons r t ih =>
      simp only [List.map_cons, List.nodup_cons] at hn
      rcases List.mem_cons.mp h1 with hh1 | ht1 <;>
        rcases List.mem_cons.mp h2 with hh2 | ht2
      · rw [hh1, hh2]
      · subst hh1
        refine absurd ?_ hn.1
        rw [he]
        exact List.mem_map_of_mem JobRow.job_id ht2
      · subst hh2
        refine absurd ?_ hn.1
        rw [← he]
        exact List.mem_map_of_mem JobRow.job_id ht1
      · exact ih hn.2 ht1 ht2

theorem findRow_of_mem_nodup (db : List JobRow) (r : JobRow)
    (hn : jobsNodup db) (hm : r ∈ db) : findRow db r.job_id = some r := by
  cases hf : findRow db r.job_id with
  | none =>
      exfalso
      have := List.find?_eq_none.mp hf r hm
      simp at this
  | some r2 =>
      have hid := findRow_some_job_id db r.job_id r2 hf
      have := row_unique db r2 r hn (mem_of_findRow db _ _ hf) hm (by rw [hid])
      rw [this]

theorem jobsNodup_mapRows (g : JobRow → JobRow)
    (hg : ∀ r, (g r).job_id = r.job_id) (db : List JobRow)
    (h : jobsNodup db) : jobsNodup (db.map g) := by
  unfold jobsNodup at h ⊢
  rw [List.map_map]
  have : (JobRow.job_id ∘ g) = JobRow.job_id := by
    funext r
    exact hg r
  rw [this]
  exact h

theorem browserOf_mapRows (g : JobRow → JobRow)
    (hg : ∀ r, (g r).job_id = r.job_id ∧ (g r).browser_id = r.browser_id)
    (db : List JobRow) : browserOf (db.map g) = browserOf db := by
  unfold browserOf
  rw [List.map_map]
  congr 1
  funext r
  simp [Function.comp, (hg r).1, (hg r).2]

/-- The row transformer of an updateWhere. -/
theorem findRow_updateWhere (p : JobRow → Prop) [DecidablePred p]
    (f : JobRow → JobRow) (hf : ∀ r, (f r).job_id = r.job_id)
    (db : List JobRow) (j : Nat) :
    findRow (updateWhere p f db).1 j =
      (findRow db j).map fun r => if p r then f r else r := by
  rw [updateWhere_rows]
  exact findRow_mapRows _ (fun r => by by_cases h : p r <;> simp [h, hf r]) db j

theorem jobsNodup_updateWhere (p : JobRow → Prop) [DecidablePred p]
    (f : JobRow → JobRow) (hf : ∀ r, (f r).job_id = r.job_id)
    (db : List JobRow) (h : jobsNodup db) :
    jobsNodup (updateWhere p f db).1 := by
  rw [updateWhere_rows]
  exact jobsNodup_mapRows _ (fun r => by by_cases hp : p r <;> simp [hp, hf r]) db h

/-- cleanupStep (the body of the expiry-sweep loop) preserves the
coordinator invariant, for any job id. -/
theorem cleanupStep_good (now j : Nat) (st : SysState) (h : goodState st) :
    goodState (cleanupStep now st j) := by
  obtain ⟨hk, hn, ha, hb⟩ := h
  unfold cleanupStep releaseLease
  set g : JobRow → JobRow := fun r =>
    if r.job_id = j then
      { r with state := JobState.queued, lease_id := none, lease_until := none,
               attempts := r.attempts + 1, updated_at := now }
    else r with hgdef
  have hrows : (sqlRequeueJob now j st.jobs).1 = st.jobs.map g := rfl
  have hgid : ∀ r, (g r).job_id = r.job_id := by
    intro r
    by_cases hp : r.job_id = j <;> simp [hgdef, hp]
  have hfind : ∀ j2, findRow (st.jobs.map g) j2 = (findRow st.jobs j2).map g :=
    findRow_mapRows g hgid st.jobs
  have hnd2 : jobsNodup (st.jobs.map g) := jobsNodup_mapRows g hgid st.jobs hn
  have hagree2 : ∀ j2 lease, j2 ≠ j → alookup st.leases j2 = some lease →
      ∃ r, findRow (st.jobs.map g) j2 = some r ∧ r.state = JobState.leased ∧
           r.lease_id = some lease.leaseId ∧ r.browser_id = lease.browserId := by
    intro j2 lease hne hlk
    obtain ⟨r, hr, hst, hlid, hbr⟩ := ha j2 lease hlk
    refine ⟨r, ?_, hst, hlid, hbr⟩
    rw [hfind j2, hr]
    have : g r = r := by
      have : r.job_id = j2 := findRow_some_job_id _ _ _ hr
      simp [hgdef, this, hne]
    simp [this]
  have hback2 : ∀ r2 ∈ st.jobs.map g, r2.state = JobState.leased →
      r2.job_id ≠ j ∧ ∃ lease, alookup st.leases r2.job_id = some lease ∧
        r2.lease_id = some lease.leaseId := by
    intro r2 hr2 hst2
    obtain ⟨r, hrm, hgr⟩ := List.mem_map.mp hr2
    by_cases hp : r.job_id = j
    · exfalso
      rw [← hgr] at hst2
      simp [hgdef, hp] at hst2
    · have : g r = r := by simp [hgdef, hp]
      rw [this] at hgr
      subst hgr
      exact ⟨hp, hb r hrm hst2⟩
  cases hlk : alookup st.leases j with
  | none =>
      refine ⟨hk, hnd2, ?_, ?_⟩
      · intro j2 lease hlk2
        have hne : j2 ≠ j := by
          intro hc
          rw [hc, hlk] at hlk2
          cases hlk2
        exact hagree2 j2 lease hne hlk2
      · intro r2 hr2 hst2
        obtain ⟨_, lease, hl, hi⟩ := hback2 r2 hr2 hst2
        exact ⟨lease, hl, hi⟩
  | some lease0 =>
      refine ⟨keysNodup_aerase _ _ hk, hnd2, ?_, ?_⟩
      · intro j2 lease hlk2
        have hne : j2 ≠ j := by
          intro hc
          rw [hc, alookup_aerase_self _ _ hk] at hlk2
          cases hlk2
        rw [alookup_aerase_ne _ _ _ (fun hc => hne hc.symm)] at hlk2
        exact hagree2 j2 lease hne hlk2
      · intro r2 hr2 hst2
        obtain ⟨hne, lease, hl, hi⟩ := hback2 r2 hr2 hst2
        refine ⟨lease, ?_, hi⟩
        rw [alookup_aerase_ne _ _ _ (fun hc => hne hc.symm)]
        exact hl

/-- cleanupStep never changes the (job_id, browser_id) projection. -/
theorem cleanupStep_browserOf (now j : Nat) (st : SysState) :
    browserOf (cleanupStep now st j).jobs = browserOf st.jobs := by
  unfold cleanupStep releaseLease
  have hb : browserOf (sqlRequeueJob now j st.jobs).1 = browserOf st.jobs := by
    unfold sqlRequeueJob
    rw [updateWhere_rows]
    refine browserOf_mapRows _ (fun r => ?_) st.jobs
    by_cases hp : r.job_id = j <;> simp [hp]
  cases alookup st.leases j with
  | none => exact hb
  | some lease0 => exact hb

/-- cleanupExpiredLeases preserves the invariant and the (job_id, browser_id)
projection. -/
theorem cleanup_good (st : SysState) (now : Nat) (h : goodState st) :
    goodState (cleanupExpiredLeases st now) ∧
    browserOf (cleanupExpiredLeases st now).jobs = browserOf st.jobs := by
  unfold cleanupExpiredLeases
  generalize ((st.leases.filter fun p =>
    decide (isTimestampExpired now p.2.leaseUntil)).map Prod.fst) = js
  induction js generalizing st with
  | nil => exact ⟨h, rfl⟩
  | cons j t ih =>
      simp only [List.foldl_cons]
      obtain ⟨h1, h2⟩ := ih (cleanupStep now st j) (cleanupStep_good now j st h)
      exact ⟨h1, by rw [h2, cleanupStep_browserOf]⟩

/-- createLease preserves the invariant, never disturbs existing leases, and
registers a lease exactly when the conditional store write succeeded. The
hbrow hypothesis records that the candidate row belongs to the requesting
browser (guaranteed by findAvailableTasks). -/
theorem createLease_good (st : SysState) (task : JobRow) (b now : Nat)
    (h : goodState st)
    (hbrow : ∀ r ∈ st.jobs, r.job_id = task.job_id → r.browser_id = b) :
    goodState (createLease st task b now).1 ∧
    browserOf (createLease st task b now).1.jobs = browserOf st.jobs ∧
    (∀ j lease, alookup st.leases j = some lease →
      alookup (createLease st task b now).1.leases j = some lease) ∧
    (∀ lease, (createLease st task b now).2 = some lease →
      alookup (createLease st task b now).1.leases task.job_id = some lease ∧
      lease.jobId = task.job_id ∧ lease.browserId = b ∧
      lease.leaseId = st.nextLeaseId) := by
  obtain ⟨hk, hn, ha, hb⟩ := h
  set p : JobRow → Prop :=
    fun r => r.job_id = task.job_id ∧ r.state = JobState.queued with hpdef
  set f : JobRow → JobRow := fun r =>
    { r with state := JobState.leased, lease_id := some st.nextLeaseId,
             lease_until := some (now + leaseDurationMs), updated_at := now }
    with hfdef
  set g : JobRow → JobRow := fun r => if p r then f r else r with hgdef
  have hgid : ∀ r, (g r).job_id = r.job_id := by
    intro r
    show (if p r then f r else r).job_id = r.job_id
    by_cases hp : p r
    · rw [if_pos hp]
    · rw [if_neg hp]
  have hgbr : ∀ r, (g r).browser_id = r.browser_id := by
    intro r
    show (if p r then f r else r).browser_id = r.browser_id
    by_cases hp : p r
    · rw [if_pos hp]
    · rw [if_neg hp]
  have hres : sqlLeaseUpdate task.job_id st.nextLeaseId (now + leaseDurationMs) now st.jobs =
      updateWhere p f st.jobs := rfl
  by_cases hch : (updateWhere p f st.jobs).2 = 0
  · have hjobs : (updateWhere p f st.jobs).1 = st.jobs :=
      updateWhere_changes_zero p f st.jobs hch
    have heq : createLease st task b now =
        ({ st with jobs := (updateWhere p f st.jobs).1,
                   nextLeaseId := st.nextLeaseId + 1 }, none) := by
      simp only [createLease]
      rw [hres, if_pos hch]
    rw [heq]
    refine ⟨⟨hk, ?_, ?_, ?_⟩, ?_, ?_, ?_⟩
    · simpa [hjobs] using hn
    · intro j lease hlk
      obtain ⟨r, hr, hrest⟩ := ha j lease hlk
      exact ⟨r, by simpa [hjobs] using hr, hrest⟩
    · intro r hr hst
      exact hb r (by simpa [hjobs] using hr) hst
    · simp [browserOf, hjobs]
    · intro j lease hlk
      exact hlk
    · intro lease hcl
      cases hcl
  · have hch2 : (updateWhere p f st.jobs).2 ≠ 0 := hch
    obtain ⟨r0, hr0m, hp0⟩ := updateWhere_changes_pos p f st.jobs hch2
    obtain ⟨hid0, hq0⟩ := hp0
    have hfr0 : findRow st.jobs task.job_id = some r0 := by
      have := findRow_of_mem_nodup st.jobs r0 hn hr0m
      rw [hid0] at this
      exact this
    set lease : TaskLease :=
      { jobId := task.job_id, leaseId := st.nextLeaseId, browserId := b,
        leaseUntil := now + leaseDurationMs, heartbeatCount := 0,
        createdAt := now } with hldef
    have heq : createLease st task b now =
        ({ st with jobs := (updateWhere p f st.jobs).1,
                   leases := aset st.leases task.job_id lease,
                   browserLeases := browserIndexAdd st.browserLeases b task.job_id,
                   nextLeaseId := st.nextLeaseId + 1 }, some lease) := by
      simp only [createLease]
      rw [hres, if_neg hch]
    have hfind : ∀ j2, findRow (updateWhere p f st.jobs).1 j2 =
        (findRow st.jobs j2).map g := by
      intro j2
      rw [updateWhere_rows]
      exact findRow_mapRows g hgid st.jobs j2
    have hnolease : alookup st.leases task.job_id = none := by
      cases hlk : alookup st.leases task.job_id with
      | none => rfl
      | some lease2 =>
          exfalso
          obtain ⟨r, hr, hst2, _, _⟩ := ha task.job_id lease2 hlk
          have : r = r0 := row_unique st.jobs r r0 hn (mem_of_findRow _ _ _ hr) hr0m
            (by rw [findRow_some_job_id _ _ _ hr, hid0])
          rw [this, hq0] at hst2
          cases hst2
    rw [heq]
    refine ⟨⟨keysNodup_aset _ _ _ hk, ?_, ?_, ?_⟩, ?_, ?_, ?_⟩
    · exact jobsNodup_updateWhere p f (fun r => rfl) st.jobs hn
    · intro j2 lease2 hlk2
      by_cases hj2 : j2 = task.job_id
      · subst hj2
        rw [alookup_aset_self] at hlk2
        cases hlk2
        have hgr0 : g r0 = f r0 := by
          show (if p r0 then f r0 else r0) = f r0
          exact if_pos ⟨hid0, hq0⟩
        refine ⟨g r0, ?_, ?_, ?_, ?_⟩
        · rw [hfind, hfr0]
          rfl
        · rw [hgr0]
        · rw [hgr0]
        · rw [hgr0]
          exact hbrow r0 hr0m hid0
      · rw [alookup_aset_ne _ _ _ _ (fun hc => hj2 hc.symm)] at hlk2
        obtain ⟨r, hr, hst2, hlid, hbr2⟩ := ha j2 lease2 hlk2
        refine ⟨r, ?_, hst2, hlid, hbr2⟩
        rw [hfind, hr]
        have hrid : r.job_id = j2 := findRow_some_job_id _ _ _ hr
        have hgr : g r = r := by
          show (if p r then f r else r) = r
          refine if_neg ?_
          intro hc
          rw [← hrid, hc.1] at hj2
          exact hj2 rfl
        show some (g r) = some r
        rw [hgr]
    · intro r2 hr2 hst2
      rw [updateWhere_rows] at hr2
      obtain ⟨r, hrm, hgr⟩ := List.mem_map.mp hr2
      by_cases hp : p r
      · have hr2f : r2 = f r := by
          rw [← hgr]
          show (if p r then f r else r) = f r
          exact if_pos hp
        subst hr2f
        have hfj : (f r).job_id = task.job_id := hp.1
        rw [hfj, alookup_aset_self]
        exact ⟨lease, rfl, rfl⟩
      · have hr2r : r2 = r := by
          rw [← hgr]
          show (if p r then f r else r) = r
          exact if_neg hp
        subst hr2r
        obtain ⟨lease2, hl2, hi2⟩ := hb r2 hrm hst2
        have hne : r2.job_id ≠ task.job_id := by
          intro hc
          have : r2 = r0 := row_unique st.jobs r2 r0 hn hrm hr0m (by rw [hc, hid0])
          rw [this, hq0] at hst2
          cases hst2
        rw [alookup_aset_ne _ _ _ _ (fun hc => hne hc.symm)]
        exact ⟨lease2, hl2, hi2⟩
    · rw [updateWhere_rows]
      exact browserOf_mapRows g (fun r => ⟨hgid r, hgbr r⟩) st.jobs
    · intro j lease2 hlk
      have hne : j ≠ task.job_id := by
        intro hc
        rw [hc, hnolease] at hlk
        cases hlk
      rw [alookup_aset_ne _ _ _ _ (fun hc => hne hc.symm)]
      exact hlk
    · intro lease2 hcl
      cases hcl
      exact ⟨alookup_aset_self _ _ _, rfl, rfl, rfl⟩

theorem mem_insertSorted (le : JobRow → JobRow → Bool) (x a : JobRow)
    (l : List JobRow) : a ∈ insertSorted le x l ↔ a = x ∨ a ∈ l := by
  induction l with
  | nil => simp [insertSorted]
  | cons y ys ih =>
      by_cases hle : le x y
      · simp [insertSorted, hle, List.mem_cons]
      · simp only [insertSorted, if_neg hle, List.mem_cons, ih]
        tauto

theorem mem_sortRows (le : JobRow → JobRow → Bool) (a : JobRow)
    (l : List JobRow) : a ∈ sortRows le l ↔ a ∈ l := by
  induction l with
  | nil => simp [sortRows]
  | cons x xs ih =>
      simp only [sortRows, mem_insertSorted, List.mem_cons, ih]

/-- Every candidate returned by findAvailableTasks is a queued row of the
requesting browser, taken from the table. -/
theorem findAvailableTasks_mem (db : List JobRow) (b m : Nat) :
    ∀ task ∈ findAvailableTasks db b m,
      task ∈ db ∧ task.browser_id = b ∧ task.state = JobState.queued := by
  intro task ht
  unfold findAvailableTasks at ht
  have h1 := List.take_subset m _ ht
  rw [mem_sortRows] at h1
  have h2 := List.mem_of_mem_filter h1
  have h3 := List.of_mem_filter h1
  have h4 := of_decide_eq_true h3
  exact ⟨h2, h4.1, h4.2⟩

theorem mem_browserOf (db : List JobRow) (x y : Nat) :
    (x, y) ∈ browserOf db ↔ ∃ r ∈ db, r.job_id = x ∧ r.browser_id = y := by
  unfold browserOf
  rw [List.mem_map]
  constructor
  · rintro ⟨r, hr, hpair⟩
    exact ⟨r, hr, congrArg Prod.fst hpair, congrArg Prod.snd hpair⟩
  · rintro ⟨r, hr, h1, h2⟩
    exact ⟨r, hr, by rw [h1, h2]⟩

theorem browserOf_transfer (db1 db2 : List JobRow)
    (hEq : browserOf db1 = browserOf db2) (j b2 : Nat)
    (h : ∀ r ∈ db2, r.job_id = j → r.browser_id = b2) :
    ∀ r ∈ db1, r.job_id = j → r.browser_id = b2 := by
  intro r hr hid
  have hm : (r.job_id, r.browser_id) ∈ browserOf db1 :=
    (mem_browserOf db1 r.job_id r.browser_id).mpr ⟨r, hr, rfl, rfl⟩
  rw [hEq, mem_browserOf] at hm
  obtain ⟨r2, hr2, h1, h2⟩ := hm
  rw [← h2]
  exact h r2 hr2 (by rw [h1, hid])

/-- The lease loop preserves the invariant, never disturbs or overwrites
existing leases, and every item it answers with is registered in the final
lease index under the requesting browser. -/
theorem leaseLoop_good (tasks : List JobRow) (st : SysState) (b now : Nat)
    (h : goodState st)
    (htasks : ∀ task ∈ tasks, ∀ r ∈ st.jobs,
      r.job_id = task.job_id → r.browser_id = b) :
    goodState (leaseLoop st tasks b now).1 ∧
    browserOf (leaseLoop st tasks b now).1.jobs = browserOf st.jobs ∧
    (∀ j lease, alookup st.leases j = some lease →
      alookup (leaseLoop st tasks b now).1.leases j = some lease) ∧
    (∀ item ∈ (leaseLoop st tasks b now).2, ∃ lease,
      alookup (leaseLoop st tasks b now).1.leases item.jobId = some lease ∧
      lease.leaseId = item.leaseId ∧ lease.browserId = b) := by
  induction tasks generalizing st with
  | nil =>
      refine ⟨h, rfl, fun j lease hl => hl, ?_⟩
      intro item hitem
      cases hitem
  | cons t ts ih =>
      obtain ⟨hg1, hbof1, hpres1, hreg1⟩ :=
        createLease_good st t b now h (htasks t (List.mem_cons_self t ts))
      have htasks2 : ∀ task ∈ ts, ∀ r ∈ (createLease st t b now).1.jobs,
          r.job_id = task.job_id → r.browser_id = b := by
        intro task htm
        exact browserOf_transfer _ _ hbof1 task.job_id b
          (htasks task (List.mem_cons_of_mem t htm))
      obtain ⟨ig, ibof, ipres, ireg⟩ :=
        ih (createLease st t b now).1 hg1 htasks2
      cases hcl : (createLease st t b now).2 with
      | none =>
          have hloop : leaseLoop st (t :: ts) b now =
              leaseLoop (createLease st t b now).1 ts b now := by
            simp only [leaseLoop]
            rw [hcl]
          rw [hloop]
          exact ⟨ig, by rw [ibof, hbof1], fun j lease hl => ipres j lease (hpres1 j lease hl), ireg⟩
      | some lease0 =>
          obtain ⟨hreg0, hjid0, hbr0, _⟩ := hreg1 lease0 hcl
          have hloop : leaseLoop st (t :: ts) b now =
              ((leaseLoop (createLease st t b now).1 ts b now).1,
               { jobId := t.job_id, url := t.url, taskName := t.task_name,
                 contentType := t.content_type, leaseId := lease0.leaseId,
                 leaseUntil := lease0.leaseUntil } ::
                 (leaseLoop (createLease st t b now).1 ts b now).2) := by
            simp only [leaseLoop]
            rw [hcl]
          rw [hloop]
          refine ⟨ig, by rw [ibof, hbof1],
            fun j lease hl => ipres j lease (hpres1 j lease hl), ?_⟩
          intro item hitem
          rcases List.mem_cons.mp hitem with hhead | htail
          · subst hhead
            exact ⟨lease0, ipres t.job_id lease0 hreg0, rfl, hbr0⟩
          · exact ireg item htail

/-- handleLease preserves the coordinator invariant and registers every item
it answers with. -/
theorem handleLease_good (st : SysState) (b m t : Nat) (h : goodState st) :
    goodState (handleLease st b m t).1 ∧
    (∀ item ∈ (handleLease st b m t).2, ∃ lease,
      alookup (handleLease st b m t).1.leases item.jobId = some lease ∧
      lease.leaseId = item.leaseId ∧ lease.browserId = b) := by
  obtain ⟨hg1, hbof1⟩ := cleanup_good st t h
  have htasks : ∀ task ∈ findAvailableTasks (cleanupExpiredLeases st t).jobs b m,
      ∀ r ∈ (cleanupExpiredLeases st t).jobs,
        r.job_id = task.job_id → r.browser_id = b := by
    intro task htm r hr hid
    obtain ⟨htm2, hbid, _⟩ := findAvailableTasks_mem _ b m task htm
    have : r = task := row_unique _ r task hg1.2.1 hr htm2 hid
    rw [this, hbid]
  obtain ⟨lg, _, _, lreg⟩ :=
    leaseLoop_good (findAvailableTasks (cleanupExpiredLeases st t).jobs b m)
      (cleanupExpiredLeases st t) b t hg1 htasks
  exact ⟨lg, lreg⟩

/-- A sequence of lease calls processed one at a time — the Durable Object
serializes all coordinator requests, so N concurrent lease calls are
exactly some interleaving handled as a sequence. Each request is a
(browserId, maxItems, now) triple. -/
def runLeases (st : SysState) : List (Nat × Nat × Nat) → SysState
  | [] => st
  | (b, m, t) :: rest => runLeases (handleLease st b m t).1 rest

/-- C1: starting from a consistent state, after any sequence of lease calls
(the serialized form of N concurrent lease calls racing for the same
candidates) the coordinator invariant still holds; at most one
(browserId, leaseId) record holds any job (the lease index is functional);
every lease record is mirrored by a jobs row in state leased carrying the
same lease id (an acquisition counts only once the conditional queued-to-
leased store write succeeded); and conversely every leased jobs row is backed
by exactly the lease record the index holds — index and store never disagree
about who holds a job. -/
theorem lease_mutual_exclusion (st0 : SysState) (reqs : List (Nat × Nat × Nat))
    (h : goodState st0) :
    goodState (runLeases st0 reqs) ∧
    (∀ j l1 l2, alookup (runLeases st0 reqs).leases j = some l1 →
      alookup (runLeases st0 reqs).leases j = some l2 → l1 = l2) ∧
    (∀ j lease, alookup (runLeases st0 reqs).leases j = some lease →
      ∃ r, findRow (runLeases st0 reqs).jobs j = some r ∧
           r.state = JobState.leased ∧ r.lease_id = some lease.leaseId) ∧
    (∀ r ∈ (runLeases st0 reqs).jobs, r.state = JobState.leased →
      ∃ lease, alookup (runLeases st0 reqs).leases r.job_id = some lease ∧
               r.lease_id = some lease.leaseId) := by
  have hg : goodState (runLeases st0 reqs) := by
    induction reqs generalizing st0 with
    | nil => exact h
    | cons req rest ih =>
        obtain ⟨b, m, t⟩ := req
        exact ih (handleLease st0 b m t).1 (handleLease_good st0 b m t h).1
  refine ⟨hg, ?_, ?_, hg.2.2.2⟩
  · intro j l1 l2 h1 h2
    rw [h1] at h2
    exact Option.some.inj h2
  · intro j lease hlk
    obtain ⟨r, hr, hst, hlid, _⟩ := hg.2.2.1 j lease hlk
    exact ⟨r, hr, hst, hlid⟩

/-- A fresh initial state: one queued job for browser 7, no leases. -/
def sampleQueuedState : SysState := { jobs := [sampleJobQueued] }

theorem goodState_sampleQueuedState : goodState sampleQueuedState := by
  refine ⟨by simp [keysNodup, sampleQueuedState], by simp [jobsNodup, sampleQueuedState], ?_, ?_⟩
  · intro j lease hlk
    exact Option.noConfusion hlk
  · intro r hr hst
    have hr2 : r = sampleJobQueued := by
      simpa [sampleQueuedState] using hr
    rw [hr2] at hst
    exact JobState.noConfusion hst

theorem lease_mutual_exclusion_witness :
    goodState (runLeases sampleQueuedState [(7, 1, 100), (7, 1, 200)]) ∧
    (handleLease sampleQueuedState 7 1 100).2.length = 1 ∧
    (handleLease (handleLease sampleQueuedState 7 1 100).1 7 1 200).2 = [] := by
  refine ⟨(lease_mutual_exclusion sampleQueuedState [(7, 1, 100), (7, 1, 200)]
    goodState_sampleQueuedState).1, ?_, ?_⟩
  · decide
  · decide

/-- C10: candidate selection filters on browser_id = requesting browserId
(and state = queued); every item granted by handleLease is registered under a
lease whose browserId is the requesting browser; and in the resulting state
every lease record points at a jobs row whose browser_id column equals the
lease holder — so a lease is only ever granted to, and held by, the browser
the job row names, and the functional lease index leaves no room for two
browsers holding the same job. -/
theorem lease_browser_affinity (st : SysState) (b m t : Nat)
    (h : goodState st) :
    (∀ db mi, ∀ task ∈ findAvailableTasks db b mi,
      task.browser_id = b ∧ task.state = JobState.queued) ∧
    (∀ item ∈ (handleLease st b m t).2, ∃ lease,
      alookup (handleLease st b m t).1.leases item.jobId = some lease ∧
      lease.leaseId = item.leaseId ∧ lease.browserId = b) ∧
    (∀ j lease, alookup (handleLease st b m t).1.leases j = some lease →
      ∃ r, findRow (handleLease st b m t).1.jobs j = some r ∧
           r.browser_id = lease.browserId) := by
  obtain ⟨hg, hreg⟩ := handleLease_good st b m t h
  refine ⟨?_, hreg, ?_⟩
  · intro db mi task htm
    exact (findAvailableTasks_mem db b mi task htm).2
  · intro j lease hlk
    obtain ⟨r, hr, _, _, hbr⟩ := hg.2.2.1 j lease hlk
    exact ⟨r, hr, hbr⟩

theorem lease_browser_affinity_witness :
    ∃ lease,
      alookup (handleLease sampleQueuedState 7 1 100).1.leases 1 = some lease ∧
      lease.leaseId = 0 ∧ lease.browserId = 7 := by
  have hm : ({ jobId := 1, url := 4, taskName := 3, contentType := 5,
               leaseId := 0, leaseUntil := 1800100 } : LeasedItem) ∈
      (handleLease sampleQueuedState 7 1 100).2 := by decide
  exact (lease_browser_affinity sampleQueuedState 7 1 100
    goodState_sampleQueuedState).2.1 _ hm

/-! ### Delivery worker lemmas -/

/-- Lookup of a delivery record (SELECT ... WHERE delivery_id = ?). -/
def getCallback (rows : List CallbackRow) (id : Nat) : Option CallbackRow :=
  rows.find? fun r => decide (r.delivery_id = id)

theorem callbackUpsert_fresh (rows : List CallbackRow) (c : CallbackRow)
    (h : ∀ r ∈ rows, r.delivery_id ≠ c.delivery_id) :
    callbackUpsert rows c = rows ++ [c] := by
  unfold callbackUpsert
  rw [if_neg]
  intro hc
  rw [List.any_eq_true] at hc
  obtain ⟨r, hr, hdec⟩ := hc
  exact h r hr (of_decide_eq_true hdec)

theorem updateDeliveryRecord_no_match (rows : List CallbackRow) (id : Nat)
    (sc da : Option Nat) (le : Option String) (att : Option Nat) (now : Nat)
    (h : ∀ r ∈ rows, r.delivery_id ≠ id) :
    updateDeliveryRecord rows id sc da le att now = rows := by
  unfold updateDeliveryRecord
  induction rows with
  | nil => rfl
  | cons r t ih =>
      rw [List.map_cons, if_neg (h r (List.mem_cons_self r t)),
        ih fun r2 hr2 => h r2 (List.mem_cons_of_mem r hr2)]

theorem updateDeliveryRecord_append (rows : List CallbackRow) (c : CallbackRow)
    (id : Nat) (sc da : Option Nat) (le : Option String) (att : Option Nat)
    (now : Nat) (h : ∀ r ∈ rows, r.delivery_id ≠ id) (hc : c.delivery_id = id) :
    updateDeliveryRecord (rows ++ [c]) id sc da le att now =
      rows ++ [{ c with
        status_code := (match sc with | some v => some v | none => c.status_code),
        delivered_at := (match da with | some v => some v | none => c.delivered_at),
        last_error := (match le with | some v => some v | none => c.last_error),
        attempts := (match att with | some v => v | none => c.attempts),
        updated_at := now }] := by
  unfold updateDeliveryRecord
  rw [List.map_append]
  have h1 : updateDeliveryRecord rows id sc da le att now = rows :=
    updateDeliveryRecord_no_match rows id sc da le att now h
  unfold updateDeliveryRecord at h1
  rw [h1, List.map_singleton, if_pos hc]

theorem find_append_fresh (rows : List CallbackRow) (l2 : List CallbackRow)
    (id : Nat) (h : ∀ r ∈ rows, r.delivery_id ≠ id) :
    ((rows ++ l2).find? fun r => decide (r.delivery_id = id)) =
      (l2.find? fun r => decide (r.delivery_id = id)) := by
  induction rows with
  | nil => rfl
  | cons r t ih =>
      rw [List.cons_append,
        List.find?_cons_of_neg _ (by simp [h r (List.mem_cons_self r t)]),
        ih fun r2 hr2 => h r2 (List.mem_cons_of_mem r hr2)]

theorem incrementDeliveryAttempts_append (rows : List CallbackRow)
    (c : CallbackRow) (id now : Nat)
    (h : ∀ r ∈ rows, r.delivery_id ≠ id) (hc : c.delivery_id = id) :
    incrementDeliveryAttempts (rows ++ [c]) id now =
      (rows ++ [{ c with attempts := c.attempts + 1, updated_at := now }],
       if c.attempts + 1 = 0 then 1 else c.attempts + 1) := by
  have hmap : rows.map (fun r =>
      if r.delivery_id = id then { r with attempts := r.attempts + 1, updated_at := now }
      else r) = rows := by
    induction rows with
    | nil => rfl
    | cons r t ih =>
        rw [List.map_cons, if_neg (h r (List.mem_cons_self r t)),
          ih fun r2 hr2 => h r2 (List.mem_cons_of_mem r hr2)]
  simp only [incrementDeliveryAttempts]
  rw [List.map_append, List.map_singleton, if_pos hc, hmap,
    find_append_fresh rows _ id h]
  rw [List.find?_cons_of_pos _ (by simp [hc])]

theorem getDeliveryAttempts_append (rows : List CallbackRow) (c : CallbackRow)
    (id : Nat) (h : ∀ r ∈ rows, r.delivery_id ≠ id) (hc : c.delivery_id = id) :
    getDeliveryAttempts (rows ++ [c]) id = c.attempts := by
  unfold getDeliveryAttempts
  rw [find_append_fresh rows _ id h]
  rw [List.find?_cons_of_pos _ (by simp [hc])]

theorem getCallback_map (g : CallbackRow → CallbackRow)
    (hg : ∀ r, (g r).delivery_id = r.delivery_id) (rows : List CallbackRow)
    (id : Nat) : getCallback (rows.map g) id = (getCallback rows id).map g := by
  unfold getCallback
  induction rows with
  | nil => rfl
  | cons r t ih =>
      by_cases h : r.delivery_id = id
      · rw [List.map_cons,
          List.find?_cons_of_pos _ (by simp [hg, h]),
          List.find?_cons_of_pos _ (by simp [h])]
        rfl
      · rw [List.map_cons,
          List.find?_cons_of_neg _ (by simp [hg, h]),
          List.find?_cons_of_neg _ (by simp [h])]
        exact ih

theorem getCallback_append_fresh (rows : List CallbackRow) (c : CallbackRow)
    (id : Nat) (h : ∀ r ∈ rows, r.delivery_id ≠ id) (hc : c.delivery_id = id) :
    getCallback (rows ++ [c]) id = some c := by
  unfold getCallback
  rw [find_append_fresh rows _ id h]
  rw [List.find?_cons_of_pos _ (by simp [hc])]

/-- The catch block never reports a successful delivery. -/
theorem webhookCatch_never_delivered (st : SysState) (msg : WebhookMsg)
    (id : Nat) (e : String) (now s : Nat) :
    (webhookCatch st msg id e now).2 ≠ WebhookOutcome.delivered s := by
  simp only [webhookCatch]
  split
  · intro hc
    cases hc
  · intro hc
    cases hc

/-- Both catch branches leave the same callbacks table: the incremented and
error-stamped records. -/
theorem webhookCatch_callbacks (st : SysState) (msg : WebhookMsg) (id : Nat)
    (e : String) (now : Nat) :
    (webhookCatch st msg id e now).1.callbacks =
      updateDeliveryRecord (incrementDeliveryAttempts st.callbacks id now).1 id
        none none (some e) (some (incrementDeliveryAttempts st.callbacks id now).2)
        now := by
  simp only [webhookCatch]
  split
  · rfl
  · rfl

/-- The catch block either leaves the jobs table alone (retry scheduled) or
marks the job failed; it never performs the delivered transition. -/
theorem webhookCatch_jobs (st : SysState) (msg : WebhookMsg) (id : Nat)
    (e : String) (now : Nat) :
    (webhookCatch st msg id e now).1.jobs = st.jobs ∨
    (webhookCatch st msg id e now).1.jobs =
      (sqlFailJob ("Webhook delivery failed: " ++ e) now msg.job_id st.jobs).1 := by
  simp only [webhookCatch]
  split
  · exact Or.inl rfl
  · exact Or.inr rfl

/-- The catch block does not touch the delivery-id supply. -/
theorem webhookCatch_nextDeliveryId (st : SysState) (msg : WebhookMsg)
    (id : Nat) (e : String) (now : Nat) :
    (webhookCatch st msg id e now).1.nextDeliveryId = st.nextDeliveryId := by
  simp only [webhookCatch]
  split
  · rfl
  · rfl

/-- The delivery record of a successful (2xx) attempt: status recorded,
delivered_at stamped, a single attempt. -/
def deliveredRow (msg : WebhookMsg) (id now s : Nat) : CallbackRow :=
  { delivery_id := id, job_id := msg.job_id, phase := msg.phase,
    url := msg.callback_url, status_code := some s, attempts := 1,
    last_error := none, created_at := now, updated_at := now,
    delivered_at := some now }

theorem processWebhook_ok (st : SysState) (msg : WebhookMsg)
    (ts : List (Nat × List Nat)) (ek : Option (List Nat)) (payload : List Nat)
    (s now : Nat) (job : JobRow)
    (hjob : (st.jobs.find? fun r => decide (r.job_id = msg.job_id)) = some job)
    (hfresh : ∀ r ∈ st.callbacks, r.delivery_id ≠ st.nextDeliveryId)
    (hok : httpOk s) :
    (processWebhookMessage st msg ts ek payload (FetchOutcome.response s) now).2.1 =
      WebhookOutcome.delivered s ∧
    (processWebhookMessage st msg ts ek payload (FetchOutcome.response s) now).2.2 =
      some { deliveryId := st.nextDeliveryId,
             signature := signatureOf msg ts ek payload } ∧
    getCallback (processWebhookMessage st msg ts ek payload
        (FetchOutcome.response s) now).1.callbacks st.nextDeliveryId =
      some (deliveredRow msg st.nextDeliveryId now s) ∧
    (processWebhookMessage st msg ts ek payload
        (FetchOutcome.response s) now).1.nextDeliveryId = st.nextDeliveryId + 1 ∧
    (msg.phase = Phase.ingested ∧ job.state = JobState.fetched →
      (processWebhookMessage st msg ts ek payload
        (FetchOutcome.response s) now).1.jobs =
        (sqlDeliverJob now msg.job_id st.jobs).1) ∧
    (¬(msg.phase = Phase.ingested ∧ job.state = JobState.fetched) →
      (processWebhookMessage st msg ts ek payload
        (FetchOutcome.response s) now).1.jobs = st.jobs) := by
  have hcup : callbackUpsert st.callbacks
      (freshCallbackRow msg st.nextDeliveryId now) =
      st.callbacks ++ [freshCallbackRow msg st.nextDeliveryId now] :=
    callbackUpsert_fresh _ _ hfresh
  have heq : processWebhookMessage st msg ts ek payload
      (FetchOutcome.response s) now =
      ((if msg.phase = Phase.ingested ∧ job.state = JobState.fetched then
          { st with nextDeliveryId := st.nextDeliveryId + 1,
                    callbacks := st.callbacks ++
                      [deliveredRow msg st.nextDeliveryId now s],
                    jobs := (sqlDeliverJob now msg.job_id st.jobs).1 }
        else
          { st with nextDeliveryId := st.nextDeliveryId + 1,
                    callbacks := st.callbacks ++
                      [deliveredRow msg st.nextDeliveryId now s] }),
       WebhookOutcome.delivered s,
       some { deliveryId := st.nextDeliveryId,
              signature := signatureOf msg ts ek payload }) := by
    simp only [processWebhookMessage]
    rw [hjob]
    simp only [hcup]
    rw [updateDeliveryRecord_append st.callbacks
      (freshCallbackRow msg st.nextDeliveryId now) st.nextDeliveryId
      (some s) (if httpOk s then some now else none)
      (if httpOk s then none else some (httpErrorMessage s)) none now hfresh rfl]
    rw [if_pos hok, if_pos hok, if_pos hok]
    split
    · rfl
    · rfl
  rw [heq]
  by_cases hcond : msg.phase = Phase.ingested ∧ job.state = JobState.fetched
  · rw [if_pos hcond]
    refine ⟨rfl, rfl, ?_, rfl, fun h2 => rfl, fun h2 => absurd hcond h2⟩
    exact getCallback_append_fresh st.callbacks _ st.nextDeliveryId hfresh rfl
  · rw [if_neg hcond]
    refine ⟨rfl, rfl, ?_, rfl, fun h2 => absurd h2 hcond, fun h2 => rfl⟩
    exact getCallback_append_fresh st.callbacks _ st.nextDeliveryId hfresh rfl

/-- The delivery record of a non-2xx response right before the catch block:
status recorded, error noted, delivered_at still null. -/
def httpFailRow (msg : WebhookMsg) (id now s : Nat) : CallbackRow :=
  { delivery_id := id, job_id := msg.job_id, phase := msg.phase,
    url := msg.callback_url, status_code := some s, attempts := 1,
    last_error := some (httpErrorMessage s), created_at := now,
    updated_at := now, delivered_at := none }

theorem processWebhook_httpFail_eq (st : SysState) (msg : WebhookMsg)
    (ts : List (Nat × List Nat)) (ek : Option (List Nat)) (payload : List Nat)
    (s now : Nat) (job : JobRow)
    (hjob : (st.jobs.find? fun r => decide (r.job_id = msg.job_id)) = some job)
    (hfresh : ∀ r ∈ st.callbacks, r.delivery_id ≠ st.nextDeliveryId)
    (hnok : ¬httpOk s) :
    processWebhookMessage st msg ts ek payload (FetchOutcome.response s) now =
      ((webhookCatch { st with
          nextDeliveryId := st.nextDeliveryId + 1,
          callbacks := st.callbacks ++ [httpFailRow msg st.nextDeliveryId now s] }
          msg st.nextDeliveryId (httpErrorMessage s) now).1,
       (webhookCatch { st with
          nextDeliveryId := st.nextDeliveryId + 1,
          callbacks := st.callbacks ++ [httpFailRow msg st.nextDeliveryId now s] }
          msg st.nextDeliveryId (httpErrorMessage s) now).2,
       some { deliveryId := st.nextDeliveryId,
              signature := signatureOf msg ts ek payload }) := by
  have hcup : callbackUpsert st.callbacks
      (freshCallbackRow msg st.nextDeliveryId now) =
      st.callbacks ++ [freshCallbackRow msg st.nextDeliveryId now] :=
    callbackUpsert_fresh _ _ hfresh
  simp only [processWebhookMessage]
  rw [hjob]
  dsimp only
  rw [hcup]
  rw [updateDeliveryRecord_append st.callbacks
    (freshCallbackRow msg st.nextDeliveryId now) st.nextDeliveryId
    (some s) (if httpOk s then some now else none)
    (if httpOk s then none else some (httpErrorMessage s)) none now hfresh rfl]
  rw [if_neg hnok, if_neg hnok, if_neg hnok]
  rfl

theorem processWebhook_netFail_eq (st : SysState) (msg : WebhookMsg)
    (ts : List (Nat × List Nat)) (ek : Option (List Nat)) (payload : List Nat)
    (m : String) (now : Nat) (job : JobRow)
    (hjob : (st.jobs.find? fun r => decide (r.job_id = msg.job_id)) = some job)
    (hfresh : ∀ r ∈ st.callbacks, r.delivery_id ≠ st.nextDeliveryId) :
    processWebhookMessage st msg ts ek payload (FetchOutcome.failure m) now =
      ((webhookCatch { st with
          nextDeliveryId := st.nextDeliveryId + 1,
          callbacks := st.callbacks ++ [freshCallbackRow msg st.nextDeliveryId now] }
          msg st.nextDeliveryId m now).1,
       (webhookCatch { st with
          nextDeliveryId := st.nextDeliveryId + 1,
          callbacks := st.callbacks ++ [freshCallbackRow msg st.nextDeliveryId now] }
          msg st.nextDeliveryId m now).2,
       some { deliveryId := st.nextDeliveryId,
              signature := signatureOf msg ts ek payload }) := by
  have hcup : callbackUpsert st.callbacks
      (freshCallbackRow msg st.nextDeliveryId now) =
      st.callbacks ++ [freshCallbackRow msg st.nextDeliveryId now] :=
    callbackUpsert_fresh _ _ hfresh
  simp only [processWebhookMessage]
  rw [hjob]
  dsimp only
  rw [hcup]

theorem increment_fst (rows : List CallbackRow) (id now : Nat) :
    (incrementDeliveryAttempts rows id now).1 =
      rows.map fun r =>
        if r.delivery_id = id then
          { r with attempts := r.attempts + 1, updated_at := now }
        else r := by
  simp only [incrementDeliveryAttempts]
  split
  · rfl
  · rfl

/-- The delivery record as the catch block leaves it: attempts bumped once,
the error recorded, status_code and delivered_at untouched. -/
theorem getCallback_after_catch (st2 : SysState) (msg : WebhookMsg)
    (id : Nat) (e : String) (now : Nat) (rows : List CallbackRow)
    (c : CallbackRow) (hcb : st2.callbacks = rows ++ [c])
    (hfresh : ∀ r ∈ rows, r.delivery_id ≠ id) (hc : c.delivery_id = id) :
    ∃ row, getCallback (webhookCatch st2 msg id e now).1.callbacks id = some row ∧
      row.delivered_at = c.delivered_at ∧ row.status_code = c.status_code ∧
      row.attempts = c.attempts + 1 ∧ row.last_error = some e ∧
      row.job_id = c.job_id ∧ row.phase = c.phase ∧ row.url = c.url := by
  have h4 := webhookCatch_callbacks st2 msg id e now
  rw [hcb, incrementDeliveryAttempts_append rows c id now hfresh hc] at h4
  dsimp only at h4
  rw [updateDeliveryRecord_append rows _ id none none (some e) (some _) now
    hfresh ?hcx] at h4
  case hcx => exact hc
  rw [h4]
  refine ⟨_, getCallback_append_fresh rows _ id hfresh ?_, ?_, ?_, ?_, ?_, ?_, ?_, ?_⟩
  · exact hc
  · rfl
  · rfl
  · show (if c.attempts + 1 = 0 then 1 else c.attempts + 1) = c.attempts + 1
    rw [if_neg (by omega)]
  · rfl
  · rfl
  · rfl
  · rfl

/-- C8: with the job present, a delivery attempt succeeds exactly when an
HTTP response with 2xx status is observed within the fixed 30s timeout: on
2xx the outcome is delivered, the delivery record gets delivered_at = now
with the status, and — when this was the final expected phase (ingested on a
fetched job) — the job row advances to delivered, otherwise the jobs table is
untouched; a non-2xx response is never delivered and leaves delivered_at
null with the status recorded; a timeout or network error is never delivered
and leaves delivered_at and status_code null. -/
theorem delivery_2xx_semantics (st : SysState) (msg : WebhookMsg)
    (ts : List (Nat × List Nat)) (ek : Option (List Nat)) (payload : List Nat)
    (now : Nat) (job : JobRow)
    (hjob : (st.jobs.find? fun r => decide (r.job_id = msg.job_id)) = some job)
    (hfresh : ∀ r ∈ st.callbacks, r.delivery_id ≠ st.nextDeliveryId) :
    (∀ s, httpOk s →
      (processWebhookMessage st msg ts ek payload (FetchOutcome.response s) now).2.1 =
        WebhookOutcome.delivered s ∧
      getCallback (processWebhookMessage st msg ts ek payload
          (FetchOutcome.response s) now).1.callbacks st.nextDeliveryId =
        some (deliveredRow msg st.nextDeliveryId now s) ∧
      (msg.phase = Phase.ingested ∧ job.state = JobState.fetched →
        (processWebhookMessage st msg ts ek payload
          (FetchOutcome.response s) now).1.jobs =
          (sqlDeliverJob now msg.job_id st.jobs).1) ∧
      (¬(msg.phase = Phase.ingested ∧ job.state = JobState.fetched) →
        (processWebhookMessage st msg ts ek payload
          (FetchOutcome.response s) now).1.jobs = st.jobs)) ∧
    (∀ s, ¬httpOk s →
      (∀ out, (processWebhookMessage st msg ts ek payload
        (FetchOutcome.response s) now).2.1 ≠ WebhookOutcome.delivered out) ∧
      (∃ row, getCallback (processWebhookMessage st msg ts ek payload
          (FetchOutcome.response s) now).1.callbacks st.nextDeliveryId = some row ∧
        row.delivered_at = none ∧ row.status_code = some s)) ∧
    (∀ m, (∀ out, (processWebhookMessage st msg ts ek payload
        (FetchOutcome.failure m) now).2.1 ≠ WebhookOutcome.delivered out) ∧
      (∃ row, getCallback (processWebhookMessage st msg ts ek payload
          (FetchOutcome.failure m) now).1.callbacks st.nextDeliveryId = some row ∧
        row.delivered_at = none ∧ row.status_code = none)) := by
  refine ⟨?_, ?_, ?_⟩
  · intro s hok
    obtain ⟨h1, _, h3, _, h5, h6⟩ :=
      processWebhook_ok st msg ts ek payload s now job hjob hfresh hok
    exact ⟨h1, h3, h5, h6⟩
  · intro s hnok
    rw [processWebhook_httpFail_eq st msg ts ek payload s now job hjob hfresh hnok]
    dsimp only
    constructor
    · intro out
      exact webhookCatch_never_delivered _ msg st.nextDeliveryId _ now out
    · obtain ⟨row, hrow, h1, h2, _⟩ :=
        getCallback_after_catch
          { st with nextDeliveryId := st.nextDeliveryId + 1,
                    callbacks := st.callbacks ++
                      [httpFailRow msg st.nextDeliveryId now s] }
          msg st.nextDeliveryId (httpErrorMessage s) now
          st.callbacks (httpFailRow msg st.nextDeliveryId now s) rfl hfresh rfl
      exact ⟨row, hrow, h1, h2⟩
  · intro m
    rw [processWebhook_netFail_eq st msg ts ek payload m now job hjob hfresh]
    dsimp only
    constructor
    · intro out
      exact webhookCatch_never_delivered _ msg st.nextDeliveryId _ now out
    · obtain ⟨row, hrow, h1, h2, _⟩ :=
        getCallback_after_catch
          { st with nextDeliveryId := st.nextDeliveryId + 1,
                    callbacks := st.callbacks ++
                      [freshCallbackRow msg st.nextDeliveryId now] }
          msg st.nextDeliveryId m now
          st.callbacks (freshCallbackRow msg st.nextDeliveryId now) rfl hfresh rfl
      exact ⟨row, hrow, h1, h2⟩

/-- A fetched job (content already submitted) awaiting its ingested webhook. -/
def jobFetchedRow : JobRow :=
  { sampleJobQueued with state := JobState.fetched }

/-- The ingested-phase webhook message for job 1, unsigned. -/
def whMsg : WebhookMsg :=
  { job_id := 1, phase := Phase.ingested, callback_url := 9,
    callback_secret_id := none }

/-- Worker state holding only the fetched job. -/
def deliveryState : SysState := { jobs := [jobFetchedRow] }

theorem delivery_2xx_semantics_witness :
    (processWebhookMessage deliveryState whMsg [] none [1, 2]
      (FetchOutcome.response 200) 50).2.1 = WebhookOutcome.delivered 200 ∧
    (processWebhookMessage deliveryState whMsg [] none [1, 2]
      (FetchOutcome.response 500) 50).2.1 ≠ WebhookOutcome.delivered 500 := by
  have h := delivery_2xx_semantics deliveryState whMsg [] none [1, 2] 50
    jobFetchedRow (by decide) (by intro r hr; cases hr)
  exact ⟨(h.1 200 (by decide)).1, (h.2.1 500 (by decide)).1 500⟩

/-- Intermediate states of three consecutive failing deliveries of the same
webhook message (the retried message is identical; each invocation runs
processWebhookMessage afresh, exactly as the queue consumer does). -/
def whRun1 : SysState :=
  (processWebhookMessage deliveryState whMsg [] none [1, 2]
    (FetchOutcome.response 500) 100).1

def whRun2 : SysState :=
  (processWebhookMessage whRun1 whMsg [] none [1, 2]
    (FetchOutcome.response 500) 400).1

def whRun3 : SysState :=
  (processWebhookMessage whRun2 whMsg [] none [1, 2]
    (FetchOutcome.response 500) 700).1

/-- C3, evaluated at the failing input (a callback endpoint answering 500 on
three consecutive attempts): every failure schedules the retry after 240
seconds — not 60s, 120s, 240s as claimed and as the adjacent source comment
(1min, 2min, 4min) intends — because the attempt counter of the freshly
inserted record is already 2 when the delay 2 ^ attempts * 60 is computed;
and since every retry generates a fresh delivery id and record whose counter
restarts at 1, the attempts-exhausted branch is never reached: after three
failures the job row is still fetched (never marked failed), three separate
delivery records exist, and a fourth attempt has been queued. -/
theorem backoff_schedule_bug :
    (processWebhookMessage deliveryState whMsg [] none [1, 2]
      (FetchOutcome.response 500) 100).2.1 = WebhookOutcome.retryScheduled 240 ∧
    (processWebhookMessage whRun1 whMsg [] none [1, 2]
      (FetchOutcome.response 500) 400).2.1 = WebhookOutcome.retryScheduled 240 ∧
    (processWebhookMessage whRun2 whMsg [] none [1, 2]
      (FetchOutcome.response 500) 700).2.1 = WebhookOutcome.retryScheduled 240 ∧
    findRow whRun3.jobs 1 = some jobFetchedRow ∧
    whRun3.callbacks.length = 3 ∧
    whRun3.callbackQueue.map Prod.snd = [240, 240, 240] := by
  decide

/-- C4 counterexample: a retry of the same (job, phase) notification does not
reuse the delivery id — the first attempt carries X-Delivery-Id 0, its retry
carries X-Delivery-Id 1, and two delivery record rows exist for the one
logical (job, phase) notification. -/
theorem delivery_id_not_stable_cex :
    (processWebhookMessage deliveryState whMsg [] none [1, 2]
      (FetchOutcome.response 500) 100).2.2 =
      some { deliveryId := 0, signature := none } ∧
    (processWebhookMessage whRun1 whMsg [] none [1, 2]
      (FetchOutcome.response 500) 400).2.2 =
      some { deliveryId := 1, signature := none } ∧
    whRun2.callbacks.length = 2 := by
  decide

/-- C4 as amended: every attempt (with the job present) carries an
X-Delivery-Id header and records a delivery row under that id with the
message identity (job_id, phase, url); but the id is freshly generated per
attempt — it equals the current supply value and the supply is bumped — so
retries of the same (job, phase) get new delivery ids and new rows rather
than reusing one stable delivery_id. -/
theorem delivery_id_per_attempt (st : SysState) (msg : WebhookMsg)
    (ts : List (Nat × List Nat)) (ek : Option (List Nat)) (payload : List Nat)
    (fetched : FetchOutcome) (now : Nat) (job : JobRow)
    (hjob : (st.jobs.find? fun r => decide (r.job_id = msg.job_id)) = some job)
    (hfresh : ∀ r ∈ st.callbacks, r.delivery_id ≠ st.nextDeliveryId) :
    (processWebhookMessage st msg ts ek payload fetched now).2.2 =
      some { deliveryId := st.nextDeliveryId,
             signature := signatureOf msg ts ek payload } ∧
    (processWebhookMessage st msg ts ek payload fetched now).1.nextDeliveryId =
      st.nextDeliveryId + 1 ∧
    (∃ row, getCallback (processWebhookMessage st msg ts ek payload
        fetched now).1.callbacks st.nextDeliveryId = some row ∧
      row.job_id = msg.job_id ∧ row.phase = msg.phase ∧
      row.url = msg.callback_url) := by
  cases fetched with
  | response s =>
      by_cases hok : httpOk s
      · obtain ⟨_, h2, h3, h4, _, _⟩ :=
          processWebhook_ok st msg ts ek payload s now job hjob hfresh hok
        exact ⟨h2, h4, deliveredRow msg st.nextDeliveryId now s, h3, rfl, rfl, rfl⟩
      · rw [processWebhook_httpFail_eq st msg ts ek payload s now job hjob hfresh hok]
        dsimp only
        refine ⟨rfl, ?_, ?_⟩
        · rw [webhookCatch_nextDeliveryId]
        · obtain ⟨row, hrow, _, _, _, _, hj, hp, hu⟩ :=
            getCallback_after_catch
              { st with nextDeliveryId := st.nextDeliveryId + 1,
                        callbacks := st.callbacks ++
                          [httpFailRow msg st.nextDeliveryId now s] }
              msg st.nextDeliveryId (httpErrorMessage s) now
              st.callbacks (httpFailRow msg st.nextDeliveryId now s) rfl hfresh rfl
          exact ⟨row, hrow, hj, hp, hu⟩
  | failure m =>
      rw [processWebhook_netFail_eq st msg ts ek payload m now job hjob hfresh]
      dsimp only
      refine ⟨rfl, ?_, ?_⟩
      · rw [webhookCatch_nextDeliveryId]
      · obtain ⟨row, hrow, _, _, _, _, hj, hp, hu⟩ :=
          getCallback_after_catch
            { st with nextDeliveryId := st.nextDeliveryId + 1,
                      callbacks := st.callbacks ++
                        [freshCallbackRow msg st.nextDeliveryId now] }
            msg st.nextDeliveryId m now
            st.callbacks (freshCallbackRow msg st.nextDeliveryId now) rfl hfresh rfl
        exact ⟨row, hrow, hj, hp, hu⟩

theorem delivery_id_per_attempt_witness :
    (processWebhookMessage deliveryState whMsg [] none [1, 2]
      (FetchOutcome.response 200) 50).2.2 =
      some { deliveryId := 0, signature := signatureOf whMsg [] none [1, 2] } ∧
    (processWebhookMessage deliveryState whMsg [] none [1, 2]
      (FetchOutcome.response 200) 50).1.nextDeliveryId = 1 := by
  have h := delivery_id_per_attempt deliveryState whMsg [] none [1, 2]
    (FetchOutcome.response 200) 50 jobFetchedRow (by decide)
    (by intro r hr; cases hr)
  exact ⟨h.1, h.2.1⟩

/-! ### Signature correctness lemmas -/

theorem lor_eq_zero_parts (a b : Nat) (h : a ||| b = 0) : a = 0 ∧ b = 0 := by
  have ht : ∀ i, a.testBit i = false ∧ b.testBit i = false := by
    intro i
    have h2 := congrArg (fun n => n.testBit i) h
    simp only [Nat.testBit_or, Nat.zero_testBit, Bool.or_eq_false_iff] at h2
    exact h2
  constructor
  · apply Nat.eq_of_testBit_eq
    intro i
    simp [(ht i).1]
  · apply Nat.eq_of_testBit_eq
    intro i
    simp [(ht i).2]

theorem foldl_lor_eq_zero (l : List Nat) : ∀ a,
    l.foldl (fun r x => r ||| x) a = 0 → a = 0 ∧ ∀ x ∈ l, x = 0 := by
  induction l with
  | nil =>
      intro a h
      exact ⟨h, by simp⟩
  | cons x t ih =>
      intro a h
      rw [List.foldl_cons] at h
      obtain ⟨hax, ht⟩ := ih (a ||| x) h
      obtain ⟨ha, hx⟩ := lor_eq_zero_parts a x hax
      refine ⟨ha, ?_⟩
      intro y hy
      rcases List.mem_cons.mp hy with h1 | h2
      · rw [h1]
        exact hx
      · exact ht y h2

theorem zipWith_xor_self_zero (l : List Nat) :
    ∀ x ∈ List.zipWith (fun a b => a ^^^ b) l l, x = 0 := by
  induction l with
  | nil => simp
  | cons y t ih =>
      intro x hx
      rw [List.zipWith_cons_cons] at hx
      rcases List.mem_cons.mp hx with h1 | h2
      · rw [h1]
        exact Nat.xor_self y
      · exact ih x h2

theorem foldl_lor_zero_of_zeros (l : List Nat) (h : ∀ x ∈ l, x = 0) :
    l.foldl (fun r x => r ||| x) 0 = 0 := by
  induction l with
  | nil => rfl
  | cons x t ih =>
      rw [List.foldl_cons, h x (List.mem_cons_self x t), Nat.or_self]
      exact ih fun y hy => h y (List.mem_cons_of_mem x hy)

theorem zipWith_xor_eq_of_zero (l1 : List Nat) : ∀ l2 : List Nat,
    l1.length = l2.length →
    (∀ x ∈ List.zipWith (fun a b => a ^^^ b) l1 l2, x = 0) → l1 = l2 := by
  induction l1 with
  | nil =>
      intro l2 hlen _
      cases l2 with
      | nil => rfl
      | cons y t => cases hlen
  | cons x t ih =>
      intro l2 hlen h
      cases l2 with
      | nil => cases hlen
      | cons y t2 =>
          rw [List.zipWith_cons_cons] at h
          have hx : x = y :=
            Nat.xor_eq_zero.mp (h _ (List.mem_cons_self _ _))
          rw [hx, ih t2 (by simpa using hlen)
            fun z hz => h z (List.mem_cons_of_mem _ hz)]

/-- Verification succeeds on the untampered payload and its own signature. -/
theorem verify_create_self (payload secret : List Nat) :
    verifyWebhookSignature payload (createWebhookSignature payload secret)
      secret = true := by
  simp only [verifyWebhookSignature]
  rw [if_pos, if_pos trivial]
  · simp only [decide_eq_true_eq]
    exact foldl_lor_zero_of_zeros _ (zipWith_xor_self_zero _)
  · show (createWebhookSignature payload secret).take 7 = sigPrefix
    unfold createWebhookSignature
    have h7 : (7 : Nat) = sigPrefix.length := rfl
    rw [h7, List.take_left]

/-- Verification is complete: it only accepts the recomputed signature. -/
theorem verify_complete (payload sig secret : List Nat)
    (h : verifyWebhookSignature payload sig secret = true) :
    sig = createWebhookSignature payload secret := by
  simp only [verifyWebhookSignature] at h
  by_cases h1 : sig.take 7 = sigPrefix
  · rw [if_pos h1] at h
    by_cases h2 : (createWebhookSignature payload secret).length = sig.length
    · rw [if_pos h2] at h
      have h3 := of_decide_eq_true h
      have h4 := (foldl_lor_eq_zero _ 0 h3).2
      exact (zipWith_xor_eq_of_zero _ sig h2 h4).symm
    · rw [if_neg h2] at h
      cases h
  · rw [if_neg h1] at h
    cases h

theorem sha256_bytes_lt (msg : List Nat) : ∀ b ∈ sha256 msg, b < 256 := by
  intro b hb
  simp only [sha256, wordsToBytes, List.mem_flatten, List.mem_map] at hb
  obtain ⟨l, ⟨w, _, hl⟩, hbl⟩ := hb
  rw [← hl] at hbl
  simp only [List.mem_cons, List.not_mem_nil, or_false] at hbl
  rcases hbl with h1 | h1 | h1 | h1 <;>
    · rw [h1]
      exact Nat.mod_lt _ (by norm_num)

theorem hmac_bytes_lt (key msg : List Nat) : ∀ b ∈ hmacSha256 key msg, b < 256 := by
  intro b hb
  simp only [hmacSha256] at hb
  exact sha256_bytes_lt _ b hb

theorem hexBytes_inj (l1 : List Nat) : ∀ l2 : List Nat,
    (∀ b ∈ l1, b < 256) → (∀ b ∈ l2, b < 256) →
    hexBytes l1 = hexBytes l2 → l1 = l2 := by
  have hdig : ∀ x, x < 16 → ∀ y, y < 16 → hexDigitByte x = hexDigitByte y →
      x = y := by decide
  induction l1 with
  | nil =>
      intro l2 _ _ he
      cases l2 with
      | nil => rfl
      | cons y t => cases he
  | cons x t ih =>
      intro l2 hb1 hb2 he
      cases l2 with
      | nil => cases he
      | cons y t2 =>
          have hx : x < 256 := hb1 x (List.mem_cons_self x t)
          have hy : y < 256 := hb2 y (List.mem_cons_self y t2)
          have hhe : hexDigitByte (x / 16) :: hexDigitByte (x % 16) :: hexBytes t =
              hexDigitByte (y / 16) :: hexDigitByte (y % 16) :: hexBytes t2 := he
          have e1 := hdig (x / 16) (by omega) (y / 16) (by omega)
            (List.head_eq_of_cons_eq hhe)
          have htail := List.tail_eq_of_cons_eq hhe
          have e2 := hdig (x % 16) (by omega) (y % 16) (by omega)
            (List.head_eq_of_cons_eq htail)
          have e3 : x = y := by omega
          rw [e3, ih t2 (fun b hb => hb1 b (List.mem_cons_of_mem x hb))
            (fun b hb => hb2 b (List.mem_cons_of_mem y hb))
            (List.tail_eq_of_cons_eq htail)]

/-- Any payload whose HMAC differs is rejected against the original
signature. -/
theorem verify_mutation_fails (payload payload2 secret : List Nat)
    (h : hmacSha256 secret payload2 ≠ hmacSha256 secret payload) :
    verifyWebhookSignature payload2 (createWebhookSignature payload secret)
      secret = false := by
  cases hb : verifyWebhookSignature payload2
      (createWebhookSignature payload secret) secret with
  | false => rfl
  | true =>
      exfalso
      have h2 := verify_complete payload2 _ secret hb
      unfold createWebhookSignature at h2
      have h3 := List.append_cancel_left h2
      exact h (hexBytes_inj _ _ (hmac_bytes_lt secret payload)
        (hmac_bytes_lt secret payload2) h3).symm

/-- C7: the transmitted signature is sha256= followed by the hex HMAC-SHA256
of the exact payload bytes under the resolved secret; the receiver-side
verification — which recomputes the signature and compares it with the
constant-time OR-of-XORs loop — accepts the untampered payload and rejects
any payload whose HMAC differs (in particular any single-byte mutation that
changes the HMAC); the X-Signature value is produced only when the message
carries a secret reference that resolves, is absent when no secret is
configured, and the header transmitted by a delivery attempt is exactly this
value. -/
theorem signature_correctness (payload secret : List Nat) :
    createWebhookSignature payload secret =
      sigPrefix ++ hexBytes (hmacSha256 secret payload) ∧
    verifyWebhookSignature payload (createWebhookSignature payload secret)
      secret = true ∧
    (∀ payload2, hmacSha256 secret payload2 ≠ hmacSha256 secret payload →
      verifyWebhookSignature payload2 (createWebhookSignature payload secret)
        secret = false) ∧
    (∀ msg ts ek, msg.callback_secret_id = none →
      signatureOf msg ts ek payload = none) ∧
    (∀ msg ts ek sid, msg.callback_secret_id = some sid →
      getWebhookSecret ts ek sid = some secret →
      signatureOf msg ts ek payload =
        some (createWebhookSignature payload secret)) ∧
    (∀ st msg ts ek fetched now job,
      (st.jobs.find? fun r => decide (r.job_id = msg.job_id)) = some job →
      (∀ r ∈ st.callbacks, r.delivery_id ≠ st.nextDeliveryId) →
      ∃ hdr, (processWebhookMessage st msg ts ek payload fetched now).2.2 =
        some hdr ∧ hdr.signature = signatureOf msg ts ek payload) := by
  refine ⟨rfl, verify_create_self payload secret, ?_, ?_, ?_, ?_⟩
  · intro payload2 h
    exact verify_mutation_fails payload payload2 secret h
  · intro msg ts ek h
    unfold signatureOf
    rw [h]
  · intro msg ts ek sid h1 h2
    unfold signatureOf
    rw [h1]
    dsimp only
    rw [h2]
  · intro st msg ts ek fetched now job hjob hfresh
    cases fetched with
    | response s =>
        by_cases hok : httpOk s
        · obtain ⟨_, h2, _⟩ :=
            processWebhook_ok st msg ts ek payload s now job hjob hfresh hok
          exact ⟨_, h2, rfl⟩
        · rw [processWebhook_httpFail_eq st msg ts ek payload s now job hjob
            hfresh hok]
          exact ⟨_, rfl, rfl⟩
    | failure m =>
        rw [processWebhook_netFail_eq st msg ts ek payload m now job hjob hfresh]
        exact ⟨_, rfl, rfl⟩

set_option maxRecDepth 100000 in
theorem signature_correctness_witness :
    verifyWebhookSignature [104, 105]
      (createWebhookSignature [104, 105] [107, 101, 121]) [107, 101, 121] =
      true ∧
    verifyWebhookSignature [104, 106]
      (createWebhookSignature [104, 105] [107, 101, 121]) [107, 101, 121] =
      false := by
  have h := signature_correctness [104, 105] [107, 101, 121]
  exact ⟨h.2.1, h.2.2.1 [104, 106] (by decide)⟩
